import Mathlib

/-!
Shallow embedding of the Archen production-line inventory ledger
(`production_line/models.py`, `jobs/models.py`, `jobs/services.py`,
`maintenance/views.py`) and proofs about the spec's claims.

Database rows are modelled as total maps from ids to counter values:
`Part.stock_cut` / `Part.stock_cnc_tools` are `Int`-valued maps over part
ids, `Material.quantity` is a `Rat`-valued map over material ids (the
Python code stores a float and subtracts/adds BOM quantities; we model
the arithmetic exactly), and the seven `ProductStock` columns are an
`Int`-valued map over (product id, section) pairs.  Raising
`ValidationError` inside `apply_inventory` aborts the enclosing database
transaction, so `apply_inventory` is modelled as an `Except`-valued
function whose error case commits nothing.  `rollback_inventory` contains
no raise statement in the source, so it is modelled as a total function.
-/

namespace Archen

/-- Section slugs of the production line (`SectionChoices` in
`production_line/models.py`).  `sec` is used as the field name for a log's
section because `section` is a Lean keyword. -/
inductive SectionChoices where
  | cutting
  | cnc_tools
  | undercoating
  | painting
  | workpage
  | sewing
  | upholstery
  | assembly
  | packaging
deriving DecidableEq, Repr

/-- Status / label vocabulary shared by `ProductionJob.STATUS_CHOICES` and
`ProductionJob.LABEL_CHOICES` (`jobs/models.py`). -/
inductive JobTag where
  | in_progress
  | completed
  | scrapped
  | warranty
  | repaired
  | deposit
deriving DecidableEq, Repr

/-- Pointwise additive update of a keyed counter map: every stock mutation in
`apply_inventory` / `rollback_inventory` writes `current + delta` for one key. -/
def addF {κ α : Type} [DecidableEq κ] [Add α] (f : κ → α) (k : κ) (d : α) : κ → α :=
  fun i => if i = k then f i + d else f i

/-- The mutable stock counters: `Part.stock_cut`, `Part.stock_cnc_tools`
(`inventory/models.py`), `Material.quantity`, and the seven per-product
`ProductStock` columns keyed by (product id, section). -/
structure Stocks where
  stock_cut : Nat → Int
  stock_cnc_tools : Nat → Int
  quantity : Nat → Rat
  bucket : Nat × SectionChoices → Int

def Stocks.addCut (s : Stocks) (pid : Nat) (d : Int) : Stocks :=
  { s with stock_cut := addF s.stock_cut pid d }

def Stocks.addCnc (s : Stocks) (pid : Nat) (d : Int) : Stocks :=
  { s with stock_cnc_tools := addF s.stock_cnc_tools pid d }

def Stocks.addQty (s : Stocks) (mid : Nat) (d : Rat) : Stocks :=
  { s with quantity := addF s.quantity mid d }

def Stocks.addBucket (s : Stocks) (k : Nat × SectionChoices) (d : Int) : Stocks :=
  { s with bucket := addF s.bucket k d }

/-- Domain of `ProductionLog._product_field_map`: the seven sections that have
a `ProductStock` column. -/
def isProductField : SectionChoices → Bool
  | .workpage => true
  | .undercoating => true
  | .painting => true
  | .sewing => true
  | .upholstery => true
  | .assembly => true
  | .packaging => true
  | _ => false

/-- Mutable `ProductionJob` fields read and written by `apply_inventory`
(`jobs/models.py`).  `finished` models `finished_at is not None`. -/
structure JobState where
  current_section : Option SectionChoices
  status : JobTag
  job_label : JobTag
  allowed_sections : List SectionChoices
  is_external_entry : Bool
  finished : Bool
deriving DecidableEq, Repr

/-- A `ProductionLog` row (`production_line/models.py`); audit fields that the
ledger never reads are omitted.  `hasJob` models whether the `job` foreign key
is set; the referenced job's state lives in `St.job`. -/
structure PLog where
  part : Option Nat
  product : Option Nat
  hasJob : Bool
  produced_qty : Nat
  scrap_qty : Nat
  sec : SectionChoices
  is_scrap : Bool
  is_external : Bool
deriving DecidableEq, Repr

/-- The state a single log acts on: the global stock counters plus the state of
the log's job row. -/
structure St where
  stocks : Stocks
  job : JobState

/-- The three user-facing inventory `ValidationError` messages raised by
`apply_inventory` and its helpers. -/
inductive InvErr where
  | part_insufficient
  | product_insufficient
  | material_insufficient
deriving DecidableEq, Repr

/-- One entry of the list returned by `get_components_for_product`:
`{'part_name', 'qty', 'part_id'}`.  `part_id` models the row that the
database lookups inside `_resolve_component_part` would find for this
component (by pk, or by name and product model). -/
structure Component where
  part_name : String
  qty : Int
  part_id : Option Nat
deriving DecidableEq, Repr

/-- One entry of the list returned by `get_materials_for_product`:
`{'material_id', 'qty'}` with `qty` a positive decimal in the source. -/
structure MaterialReq where
  material_id : Nat
  qty : Rat
deriving DecidableEq, Repr

/-- The BOM environment: for each product id, the component list produced by
`get_components_for_product` and the material list produced by
`get_materials_for_product`.  Both helpers return `[]` for `product is None`. -/
structure Env where
  components : Nat → List Component
  materials : Nat → List MaterialReq

/-- Model of `get_components_for_product` applied to `self.product`. -/
def get_components_for_product (env : Env) : Option Nat → List Component
  | none => []
  | some p => env.components p

/-- Model of `get_materials_for_product` applied to `self.product`. -/
def get_materials_for_product (env : Env) : Option Nat → List MaterialReq
  | none => []
  | some p => env.materials p

/-- Model of `ProductionLog._resolve_component_part`: an empty (stripped)
`part_name` resolves to no part; otherwise the database lookup result recorded
in the component is returned. -/
def resolve_component_part (c : Component) : Option Nat :=
  if c.part_name.trim = "" then none else c.part_id

/-- Model of `ProductionLog.increment_current`: credit the current section,
defaulting to `produced or 1` for part sections and `+1` for product
sections.  The cutting branch validates that the projected stock is not
negative and can therefore raise. -/
def increment_current (log : PLog) (s : Stocks) : Except InvErr Stocks :=
  let produced : Int := log.produced_qty
  let scrap : Int := log.scrap_qty
  if log.sec = .cutting ∨ log.sec = .cnc_tools then
    match log.part with
    | none => .ok s
    | some pid =>
      if log.sec = .cutting then
        let increment := if produced = 0 then 1 else produced
        if s.stock_cut pid + increment - scrap < 0 then .error .part_insufficient
        else .ok (s.addCut pid (increment - scrap))
      else
        let increment := if produced = 0 then 1 else produced
        .ok (s.addCnc pid increment)
  else
    match log.product with
    | none => .ok s
    | some p =>
      if isProductField log.sec then .ok (s.addBucket (p, log.sec) 1) else .ok s

/-- Model of `ProductionLog.decrement_previous`: debit the section recorded in
`job.current_section` by one, with a non-negativity check.  No-op when the
job has no current section or when the current log enters assembly. -/
def decrement_previous (log : PLog) (job : JobState) (hasJob : Bool) (s : Stocks) :
    Except InvErr Stocks :=
  match (if hasJob then job.current_section else none) with
  | none => .ok s
  | some pv =>
    if log.sec = .assembly then .ok s
    else if pv = .cutting ∨ pv = .cnc_tools then
      match log.part with
      | none => .ok s
      | some pid =>
        if pv = .cutting then
          if s.stock_cut pid < 1 then .error .part_insufficient
          else .ok (s.addCut pid (-1))
        else
          if s.stock_cnc_tools pid < 1 then .error .part_insufficient
          else .ok (s.addCnc pid (-1))
    else
      match log.product with
      | none => .ok s
      | some p =>
        if isProductField pv then
          if s.bucket (p, pv) < 1 then .error .product_insufficient
          else .ok (s.addBucket (p, pv) (-1))
        else .ok s

/-- Model of the local `_dec_prev_product_bucket` helper of the deposit branch
of `apply_inventory`: debit the previous product bucket only (no part stock
handling and no assembly special case). -/
def dec_prev_product_bucket (log : PLog) (job : JobState) (s : Stocks) :
    Except InvErr Stocks :=
  match job.current_section with
  | none => .ok s
  | some pv =>
    match log.product with
    | none => .ok s
    | some p =>
      if isProductField pv then
        if s.bucket (p, pv) < 1 then .error .product_insufficient
        else .ok (s.addBucket (p, pv) (-1))
      else .ok s

/-- Component-consumption loop of the assembly branches of `apply_inventory`:
skip blank names, non-positive quantities and unresolvable parts, validate
`stock_cnc_tools` per component, then debit it. -/
def consume_components (comps : List Component) (s : Stocks) : Except InvErr Stocks :=
  comps.foldlM
    (fun s c =>
      if c.part_name.trim = "" ∨ c.qty ≤ 0 then .ok s
      else
        match resolve_component_part c with
        | none => .ok s
        | some pid =>
          if s.stock_cnc_tools pid < c.qty then .error .part_insufficient
          else .ok (s.addCnc pid (-c.qty)))
    s

/-- Material-consumption loop of the assembly branches of `apply_inventory`:
validate `Material.quantity` per material, then debit it. -/
def consume_materials (mats : List MaterialReq) (s : Stocks) : Except InvErr Stocks :=
  mats.foldlM
    (fun s m =>
      if s.quantity m.material_id < m.qty then .error .material_insufficient
      else .ok (s.addQty m.material_id (-m.qty)))
    s

/-- Canonical product-section order used by every completion check in
`apply_inventory` (the local `ORDER` lists). -/
def ORDER7 : List SectionChoices :=
  [.assembly, .workpage, .undercoating, .painting, .sewing, .upholstery, .packaging]

/-- Completion predicate shared by the external, deposit and normal branches
of `apply_inventory`: the section equals the last allowed section in canonical
order, or is `packaging` (unconditional fallback). -/
def should_close (allowed : List SectionChoices) (sv : SectionChoices) : Bool :=
  (decide (allowed ≠ []) &&
    (match (ORDER7.filter (fun o => allowed.contains o)).getLast? with
     | some last => decide (sv = last)
     | none => false)) || decide (sv = .packaging)

/-- Closing updates applied when a completion check fires: `warranty` becomes
`repaired`, anything else becomes `completed`; the label is promoted only from
`in_progress` to `completed`; `finished_at` is stamped. -/
def close_job (j : JobState) : JobState :=
  let j1 := if j.status = .warranty then { j with status := .repaired }
            else { j with status := .completed }
  let j2 := if j1.job_label = .in_progress ∧ j1.status = .completed then
              { j1 with job_label := .completed }
            else j1
  { j2 with finished := true }

/-- Final label sync of `apply_inventory`: promote `in_progress` to
`completed` when the status ended up `completed`. -/
def promote_label_sync (j : JobState) : JobState :=
  if j.status = .completed ∧ j.job_label = .in_progress then
    { j with job_label := .completed }
  else j

/-- Model of `ProductionLog.apply_inventory` (`production_line/models.py`).
Branch order follows the source: part-only logs, job guard, external,
deposit (scrap / normal), scrap, normal movement. -/
def apply_inventory (env : Env) (log : PLog) (st : St) : Except InvErr St :=
  match log.part, log.product with
  | some pid, none =>
    -- Part-only log: isolated part stock rules, no job semantics.
    let produced : Int := log.produced_qty
    let scrap : Int := log.scrap_qty
    let s := st.stocks
    if log.sec = .cutting then
      if s.stock_cut pid + produced - scrap < 0 then .error .part_insufficient
      else .ok { st with stocks := s.addCut pid (produced - scrap) }
    else if log.sec = .cnc_tools then
      if s.stock_cut pid < produced + scrap then .error .part_insufficient
      else .ok { st with stocks := (s.addCnc pid produced).addCut pid (-(produced + scrap)) }
    else .ok st
  | _, _ =>
    if ¬log.hasJob then .ok st
    else
      let first_entry := st.job.current_section.isNone
      if log.is_external then do
        let s1 ← increment_current log st.stocks
        let close := should_close st.job.allowed_sections log.sec
        let j1 := { st.job with current_section := some log.sec, is_external_entry := true }
        let j2 := if close then close_job j1 else j1
        .ok { stocks := s1, job := j2 }
      else if st.job.job_label = .deposit then
        if log.is_scrap then do
          let s1 ← if first_entry then pure st.stocks
                   else dec_prev_product_bucket log st.job st.stocks
          let j1 := { st.job with status := .scrapped, finished := true }
          let j2 := { j1 with current_section := some log.sec, is_external_entry := false }
          .ok { stocks := s1, job := { j2 with job_label := .scrapped } }
        else do
          let s1 ← if first_entry then pure st.stocks
                   else dec_prev_product_bucket log st.job st.stocks
          let s2 ← increment_current log s1
          let close := should_close st.job.allowed_sections log.sec
          let j1 := if close then close_job st.job else st.job
          let j2 := { j1 with current_section := some log.sec, is_external_entry := false }
          .ok { stocks := s2, job := promote_label_sync j2 }
      else if log.is_scrap then do
        let s1 ←
          if log.sec = .assembly then do
            let sa ← consume_components (get_components_for_product env log.product) st.stocks
            consume_materials (get_materials_for_product env log.product) sa
          else decrement_previous log st.job log.hasJob st.stocks
        let j1 := { st.job with status := .scrapped, finished := true }
        let j2 := { j1 with current_section := some log.sec, is_external_entry := false }
        .ok { stocks := s1, job := { j2 with job_label := .scrapped } }
      else do
        let s1 ← if first_entry then pure st.stocks
                 else decrement_previous log st.job log.hasJob st.stocks
        let s2 ←
          if log.product.isSome ∧ log.sec = .assembly ∧ ¬log.is_external then do
            let sa ← consume_components (get_components_for_product env log.product) s1
            consume_materials (get_materials_for_product env log.product) sa
          else pure s1
        let s3 ←
          if log.product.isSome ∧ log.sec = .assembly ∧ log.is_scrap then pure s2
          else increment_current log s2
        let close := log.product.isSome && should_close st.job.allowed_sections log.sec
        let j1 := if close then close_job st.job else st.job
        let j2 := if log.sec = .cnc_tools ∧ log.part.isSome ∧ log.product = none then
                    { j1 with status := .completed, finished := true }
                  else j1
        let j3 := { j2 with current_section := some log.sec, is_external_entry := false }
        .ok { stocks := s3, job := promote_label_sync j3 }

/-- Model of `ProductionLog._adjust_product_stock`: unchecked bucket
adjustment, no-op without a product, a section slug, or a non-zero delta. -/
def adjust_product_stock (log : PLog) (slug : Option SectionChoices) (delta : Int)
    (s : Stocks) : Stocks :=
  match log.product, slug with
  | some p, some sv =>
    if delta = 0 then s
    else if isProductField sv then s.addBucket (p, sv) delta else s
  | _, _ => s

/-- Component part of `ProductionLog._restore_consumed_inputs`: credit
`stock_cnc_tools` for every resolvable component with positive quantity. -/
def restore_components (comps : List Component) (s : Stocks) : Stocks :=
  comps.foldl
    (fun s c =>
      if c.qty ≤ 0 then s
      else
        match resolve_component_part c with
        | none => s
        | some pid => s.addCnc pid c.qty)
    s

/-- Material part of `ProductionLog._restore_consumed_inputs`: credit
`Material.quantity` for every material row. -/
def restore_materials (mats : List MaterialReq) (s : Stocks) : Stocks :=
  mats.foldl (fun s m => s.addQty m.material_id m.qty) s

/-- Model of `ProductionLog._restore_consumed_inputs`. -/
def restore_consumed_inputs (env : Env) (log : PLog) (s : Stocks) : Stocks :=
  restore_materials (get_materials_for_product env log.product)
    (restore_components (get_components_for_product env log.product) s)

/-- Model of `ProductionLog._reverse_decrement_previous`. -/
def reverse_decrement_previous (log : PLog) (prev : Option SectionChoices)
    (s : Stocks) : Stocks :=
  match prev with
  | none => s
  | some pv =>
    if log.sec = .assembly then s
    else if pv = .cutting ∨ pv = .cnc_tools then
      match log.part with
      | none => s
      | some pid => if pv = .cutting then s.addCut pid 1 else s.addCnc pid 1
    else adjust_product_stock log (some pv) 1 s

/-- Model of `ProductionLog._reverse_part_log`. -/
def reverse_part_log (log : PLog) (s : Stocks) : Stocks :=
  match log.part with
  | none => s
  | some pid =>
    if log.product.isSome then s
    else
      let produced : Int := log.produced_qty
      let scrap : Int := log.scrap_qty
      if log.sec = .cutting then s.addCut pid (scrap - produced)
      else if log.sec = .cnc_tools then
        (s.addCnc pid (-produced)).addCut pid (produced + scrap)
      else s

/-- Model of `ProductionLog.rollback_inventory` (`production_line/models.py`).
The caller supplies the section that was previous at apply time.  The source
contains no raise statement and no write to any job field, so the model is a
total function that rewrites only `St.stocks`. -/
def rollback_inventory (env : Env) (log : PLog) (prev : Option SectionChoices)
    (st : St) : St :=
  match log.part, log.product with
  | some _, none => { st with stocks := reverse_part_log log st.stocks }
  | _, _ =>
    if ¬log.hasJob then st
    else
      let first_entry := prev.isNone
      if log.is_external then
        { st with stocks := adjust_product_stock log (some log.sec) (-1) st.stocks }
      else if st.job.job_label = .deposit then
        if log.is_scrap then
          if first_entry then st
          else { st with stocks := adjust_product_stock log prev 1 st.stocks }
        else
          let s1 := if first_entry then st.stocks
                    else adjust_product_stock log prev 1 st.stocks
          { st with stocks := adjust_product_stock log (some log.sec) (-1) s1 }
      else if log.is_scrap then
        if log.sec = .assembly then
          { st with stocks := restore_consumed_inputs env log st.stocks }
        else if first_entry then st
        else { st with stocks := reverse_decrement_previous log prev st.stocks }
      else
        let s1 := if first_entry then st.stocks
                  else reverse_decrement_previous log prev st.stocks
        let s2 := if log.sec = .assembly ∧ ¬log.is_external then
                    restore_consumed_inputs env log s1
                  else s1
        { st with stocks := adjust_product_stock log (some log.sec) (-1) s2 }

/-! ### Maintenance: the rebuild_stocks action (`maintenance/views.py`) -/

/-- Replay a list of logs through `apply_inventory` in order; the enclosing
`@transaction.atomic` makes any error abort the whole sequence. -/
def apply_all (env : Env) (logs : List PLog) (st : St) : Except InvErr St :=
  logs.foldlM (fun st l => apply_inventory env l st) st

/-- The zeroing step of the `rebuild_stocks` maintenance action: it updates
`Part.stock_cut`/`stock_cnc_tools` to 0 and the `ProductStock` columns listed
in the source — `stock_undercoating`, `stock_painting`, `stock_sewing`,
`stock_upholstery`, `stock_assembly`, `stock_packaging`.  `stock_workpage` is
not in that list and `Material.objects` is not updated, so both keep their
values. -/
def zero_for_rebuild (s : Stocks) : Stocks :=
  { stock_cut := fun _ => 0
    stock_cnc_tools := fun _ => 0
    quantity := s.quantity
    bucket := fun ps => if ps.2 = .workpage then s.bucket ps else 0 }

/-- Model of the `rebuild_stocks` branch of `maintenance_action`, restricted
to the world of a single job: zero the counters as the source does, then
replay every log in ascending `logged_at` order via `apply_inventory`. -/
def rebuild_stocks (env : Env) (logs : List PLog) (st : St) : Except InvErr St :=
  apply_all env logs { st with stocks := zero_for_rebuild st.stocks }

/-! ### Job services (`jobs/services.py`) -/

/-- Model of `_collect_log_history`: pair each log (in ascending
`(logged_at, id)` order) with the section of the log before it. -/
def collect_log_history : Option SectionChoices → List PLog →
    List (PLog × Option SectionChoices)
  | _, [] => []
  | prev, l :: rest => (l, prev) :: collect_log_history (some l.sec) rest

/-- Clamped target cursor of `rewind_job_progress`:
`max(0, min(target_cursor, len(ordered_flow)))`. -/
def rewind_clamp_target (flow : List SectionChoices) (target : Int) : Int :=
  max 0 (min target flow.length)

/-- Clamped current cursor of `rewind_job_progress`:
`max(target_cursor, min(current_cursor, len(ordered_flow)))`. -/
def rewind_clamp_current (flow : List SectionChoices) (target current : Int) : Int :=
  max (rewind_clamp_target flow target) (min current flow.length)

/-- The removed slice `ordered_flow[target_cursor:current_cursor]` after
clamping. -/
def rewind_slice (flow : List SectionChoices) (target current : Int) :
    List SectionChoices :=
  let t := rewind_clamp_target flow target
  let c := rewind_clamp_current flow target current
  (flow.drop t.toNat).take (c - t).toNat

/-- The loop of `rewind_job_progress`: walk the (log, previous-section)
contexts newest first; roll back and delete a log whose section is still in
the slice set, removing the slug from the set, and stop (keeping everything
older) once the set is empty.  Returns the number of removed logs, the kept
logs newest first, and the resulting stocks. -/
def rewind_scan (env : Env) (job : JobState) :
    List (PLog × Option SectionChoices) → List SectionChoices → Stocks →
    Nat × List PLog × Stocks
  | [], _, s => (0, [], s)
  | (l, prev) :: older, sset, s =>
    if sset.isEmpty then (0, l :: older.map Prod.fst, s)
    else if sset.contains l.sec then
      let s1 := (rollback_inventory env l prev { stocks := s, job := job }).stocks
      let r := rewind_scan env job older (sset.erase l.sec) s1
      (r.1 + 1, r.2.1, r.2.2)
    else
      let r := rewind_scan env job older sset s
      (r.1, l :: r.2.1, r.2.2)

/-- Model of `rewind_job_progress` (`jobs/services.py`).  `logs` is the job's
log history in ascending `(logged_at, id)` order; the result is the removed
count, the new current-section slug for the caller to persist, the remaining
logs in ascending order, and the resulting stocks.  `List.dedup` models the
Python `set(slice_slugs)`. -/
def rewind_job_progress (env : Env) (job : JobState) (flow : List SectionChoices)
    (target current : Int) (logs : List PLog) (s : Stocks) :
    Nat × Option SectionChoices × List PLog × Stocks :=
  if flow.isEmpty then (0, job.current_section, logs, s)
  else
    let t := rewind_clamp_target flow target
    let slice := rewind_slice flow target current
    let new_current := if t > 0 then flow.get? (t.toNat - 1) else none
    if slice.isEmpty then (0, new_current, logs, s)
    else
      let r := rewind_scan env job (collect_log_history none logs).reverse slice.dedup s
      (r.1, new_current, r.2.1.reverse, r.2.2)

/-! ### Process flow (`jobs/models.py`, `ProductionJob.get_process_flow`) -/

/-- Per-product data read by `get_process_flow`: the product model's
`process_flow` attribute (absent on `inventory.ProductModel`, so `none` for
database rows) and the product's dynamic `components` attribute (absent on
database rows, populated only by transient form state). -/
structure ProductInfo where
  process_flow : Option (List SectionChoices)
  components : Option (List Component)

/-- The product table as seen by `get_process_flow`. -/
structure FlowEnv where
  products : Nat → ProductInfo

/-- Substring test used to model Python's `needle in haystack`. -/
def strContainsSub (hay needle : String) : Bool :=
  2 ≤ (hay.splitOn needle).length

/-- The MDF/page fuzzy match of `get_process_flow`:
`'mdf' in n or 'صفحه' in n or 'page' in n` on the lowercased name. -/
def name_has_mdf_page (n : String) : Bool :=
  strContainsSub n.toLower "mdf" || strContainsSub n.toLower "صفحه" ||
    strContainsSub n.toLower "page"

/-- Flow literal returned by `get_process_flow` for products whose components
mention MDF/page (includes workpage, omits sewing and upholstery). -/
def flow_with_workpage : List SectionChoices :=
  [.cutting, .cnc_tools, .assembly, .workpage, .undercoating, .painting, .packaging]

/-- Flow literal returned by `get_process_flow` otherwise (omits workpage). -/
def flow_without_workpage : List SectionChoices :=
  [.cutting, .cnc_tools, .assembly, .undercoating, .painting, .sewing,
   .upholstery, .packaging]

/-- MDF/page detection over the dynamic `components` attribute inside
`get_process_flow`; an absent attribute (the `AttributeError` path) yields
`false`. -/
def components_include_workpage (info : ProductInfo) : Bool :=
  match info.components with
  | none => false
  | some comps => comps.any (fun c => name_has_mdf_page c.part_name)

/-- Model of `ProductionJob.get_process_flow`: part-only jobs get the fixed
two-step flow; product jobs use a non-empty `product_model.process_flow` when
present, else derive from the dynamic components list; jobs with neither
product nor part get the empty flow.  The job's `allowed_sections` is never
read. -/
def get_process_flow (fenv : FlowEnv) (part product : Option Nat) :
    List SectionChoices :=
  match part, product with
  | some _, none => [.cutting, .cnc_tools]
  | _, _ =>
    match product with
    | none => []
    | some p =>
      let info := fenv.products p
      match info.process_flow with
      | some pf =>
        if pf.isEmpty then
          if components_include_workpage info then flow_with_workpage
          else flow_without_workpage
        else pf
      | none =>
        if components_include_workpage info then flow_with_workpage
        else flow_without_workpage

/-! ### Job-creation label side effects (`jobs/models.py`,
`apply_label_side_effects` post_save signal) -/

/-- The `prev` slug chosen by the `scrapped` branch of the signal:
`allowed[-1] if len(allowed) == 1 else allowed[-2]`. -/
def scrapped_prev (allowed : List SectionChoices) : Option SectionChoices :=
  if allowed.length = 1 then allowed.getLast?
  else allowed.get? (allowed.length - 2)

/-- Model of the `apply_label_side_effects` post_save receiver: on creation of
a product job it mutates `ProductStock` according to `job_label` and updates
`status` / `finished_at`.  Returns the new stocks, status and finished flag.
The whole body is wrapped in `try/except: pass` in the source; the pure model
has no failing operation. -/
def apply_label_side_effects (job_label : JobTag) (allowed : List SectionChoices)
    (current_section : Option SectionChoices) (product : Option Nat)
    (status0 : JobTag) (finished0 : Bool) (s : Stocks) :
    Stocks × JobTag × Bool :=
  match product with
  | none => (s, status0, finished0)
  | some p =>
    if job_label = .deposit then
      match allowed with
      | [a] =>
        if isProductField a then (s.addBucket (p, a) 1, .in_progress, true)
        else (s, status0, finished0)
      | _ => (s, status0, finished0)
    else if job_label = .scrapped then
      if allowed.isEmpty then (s, status0, finished0)
      else
        match scrapped_prev allowed with
        | some pv =>
          if isProductField pv then (s.addBucket (p, pv) (-1), .scrapped, true)
          else (s, status0, finished0)
        | none => (s, status0, finished0)
    else if job_label = .completed then
      let s1 := s.addBucket (p, .packaging) 1
      let prev := match allowed.getLast? with
        | some x => some x
        | none => current_section
      let s2 := match prev with
        | some pv =>
          if isProductField pv ∧ pv ≠ .packaging then s1.addBucket (p, pv) (-1)
          else s1
        | none => s1
      (s2, .completed, true)
    else (s, status0, finished0)

/-! ### Work-entry submission and the (job, section) uniqueness constraint
(`production_line/views.py` and `ProductionLog.Meta`) -/

/-- The stored (job id, section) pairs of job-attached `ProductionLog` rows;
`production_log_unique_job_section` constrains exactly these. -/
structure LogDB where
  rows : List (Nat × SectionChoices)
deriving DecidableEq, Repr

/-- Model of `ProductionLog.objects.filter(job=job_obj, section=section).exists()`. -/
def has_job_section (db : LogDB) (jobId : Nat) (sv : SectionChoices) : Bool :=
  db.rows.any (fun r => r.1 = jobId ∧ r.2 = sv)

/-- Errors surfaced by the work-entry submission path. -/
inductive SubmitErr where
  | duplicate_section
  | inventory (e : InvErr)
deriving DecidableEq, Repr

/-- Model of creating a `ProductionLog` from `work_entry_view`: the duplicate
(job, section) check (which the database uniqueness constraint repeats at
insert time) rejects before any inventory mutation; otherwise the row is
inserted and `apply_inventory` runs in the same transaction. -/
def work_entry_submit (env : Env) (jobId : Nat) (log : PLog) (db : LogDB)
    (st : St) : Except SubmitErr (LogDB × St) :=
  if log.hasJob ∧ has_job_section db jobId log.sec then .error .duplicate_section
  else
    match apply_inventory env log st with
    | .error e => .error (.inventory e)
    | .ok st1 =>
      .ok (⟨if log.hasJob then (jobId, log.sec) :: db.rows else db.rows⟩, st1)

/-- The `production_log_unique_job_section` invariant: at most one stored log
row per (job, section) pair. -/
def at_most_one_per_job_section (db : LogDB) : Prop :=
  ∀ jobId sv, (db.rows.filter (fun r => r.1 = jobId ∧ r.2 = sv)).length ≤ 1

/-! ### Non-negativity -/

/-- Every stock counter is non-negative. -/
def Nonneg (s : Stocks) : Prop :=
  (∀ i, 0 ≤ s.stock_cut i) ∧ (∀ i, 0 ≤ s.stock_cnc_tools i) ∧
    (∀ i, 0 ≤ s.quantity i) ∧ (∀ k, 0 ≤ s.bucket k)

/-! ### Concrete instances used by witnesses and counterexamples -/

/-- The all-zero stock state. -/
def s_zero : Stocks :=
  { stock_cut := fun _ => 0, stock_cnc_tools := fun _ => 0,
    quantity := fun _ => 0, bucket := fun _ => 0 }

/-- An environment with no BOM rows. -/
def env_empty : Env := { components := fun _ => [], materials := fun _ => [] }

/-- An environment where product 1 consumes 2 units of material 1. -/
def env_mat1 : Env :=
  { components := fun _ => []
    materials := fun q => if q = 1 then [{ material_id := 1, qty := 2 }] else [] }

/-- An environment where product 1 consumes 1 unit of material 1. -/
def env_mat_one : Env :=
  { components := fun _ => []
    materials := fun q => if q = 1 then [{ material_id := 1, qty := 1 }] else [] }

/-- A fresh in-progress job with no current section. -/
def job_fresh : JobState :=
  { current_section := none, status := .in_progress, job_label := .in_progress,
    allowed_sections := [], is_external_entry := false, finished := false }

/-- A fresh deposit-labelled job allowed only into assembly. -/
def job_dep_asm : JobState :=
  { job_fresh with job_label := .deposit, allowed_sections := [.assembly] }

/-- A part-only cutting log: part 1, produced 3, scrap 1. -/
def log_cut_w : PLog :=
  { part := some 1, product := none, hasJob := false, produced_qty := 3,
    scrap_qty := 1, sec := .cutting, is_scrap := false, is_external := false }

/-- A deposit-scrap movement of product 1 into assembly. -/
def log_dep_scrap : PLog :=
  { part := none, product := some 1, hasJob := true, produced_qty := 0,
    scrap_qty := 0, sec := .assembly, is_scrap := true, is_external := false }

def st_cut_w : St := { stocks := s_zero, job := job_fresh }

/-- The state `apply_inventory` produces from `st_cut_w` on `log_cut_w`. -/
def st_cut_w1 : St := { st_cut_w with stocks := s_zero.addCut 1 (3 - 1) }

def st_dep_scrap : St := { stocks := s_zero, job := job_dep_asm }

/-- The state `apply_inventory` produces from `st_dep_scrap` on
`log_dep_scrap`: no stock movement, job closed as scrapped. -/
def st_dep_scrap1 : St :=
  { stocks := s_zero
    job := { current_section := some .assembly, status := .scrapped,
             job_label := .scrapped, allowed_sections := [.assembly],
             is_external_entry := false, finished := true } }

/-- A first-entry normal movement of product `p` into painting. -/
def log_normal_painting (p : Nat) : PLog :=
  { part := none, product := some p, hasJob := true, produced_qty := 0,
    scrap_qty := 0, sec := .painting, is_scrap := false, is_external := false }

/-- A fresh job allowed only into assembly. -/
def job_asm : JobState := { job_fresh with allowed_sections := [.assembly] }

/-- Initial state for the rebuild scenario: 6 units of material 1 on hand. -/
def st_c2 : St :=
  { stocks := { s_zero with quantity := fun i => if i = 1 then 6 else 0 }
    job := job_asm }

/-- A normal assembly movement of product 1. -/
def log_asm_normal : PLog :=
  { part := none, product := some 1, hasJob := true, produced_qty := 0,
    scrap_qty := 0, sec := .assembly, is_scrap := false, is_external := false }

/-- The state after applying `log_asm_normal` to `st_c2`: one BOM unit of
material 1 consumed (6 → 5), assembly bucket credited, job closed. -/
def st_c2_pre : St :=
  { stocks := { stock_cut := fun _ => 0, stock_cnc_tools := fun _ => 0,
                quantity := fun i => if i = 1 then 5 else 0,
                bucket := fun ps => if ps = (1, .assembly) then 1 else 0 }
    job := { current_section := some .assembly, status := .completed,
             job_label := .completed, allowed_sections := [.assembly],
             is_external_entry := false, finished := true } }

/-- The state the rebuild_stocks action produces from `st_c2_pre`: the
material was not re-zeroed, so the replay consumes it a second time (5 → 4). -/
def st_c2_post : St :=
  { stocks := { stock_cut := fun _ => 0, stock_cnc_tools := fun _ => 0,
                quantity := fun i => if i = 1 then 4 else 0,
                bucket := fun ps => if ps = (1, .assembly) then 1 else 0 }
    job := st_c2_pre.job }

/-- A product table with no process_flow attribute and no dynamic components
(the shape of every database-loaded product). -/
def fenv_plain : FlowEnv :=
  { products := fun _ => { process_flow := none, components := none } }

/-- The state `work_entry_submit` produces when `log_normal_painting 1` is
accepted on a fresh job over zero stock. -/
def st_pw1 : St :=
  { stocks := s_zero.addBucket (1, .painting) 1
    job := { job_fresh with current_section := some .painting } }

/-- An external movement of product 1 into packaging. -/
def log_ext_pack : PLog :=
  { part := none, product := some 1, hasJob := true, produced_qty := 0,
    scrap_qty := 0, sec := .packaging, is_scrap := false, is_external := true }

/-- The state `apply_inventory` produces from `st_cut_w` on `log_ext_pack`:
packaging credited, job closed as completed with the label promoted. -/
def st_ext1 : St :=
  { stocks := s_zero.addBucket (1, .packaging) 1
    job := { current_section := some .packaging, status := .completed,
             job_label := .completed, allowed_sections := [],
             is_external_entry := true, finished := true } }

/-- A fresh job whose current section is painting. -/
def job_paint : JobState := { job_fresh with current_section := some .painting }

/-- A normal movement of product 1 into packaging. -/
def log_pack_n : PLog :=
  { part := none, product := some 1, hasJob := true, produced_qty := 0,
    scrap_qty := 0, sec := .packaging, is_scrap := false, is_external := false }

/-! ## Basic lemmas about the counter algebra -/

theorem addF_apply {κ α : Type} [DecidableEq κ] [Add α] (f : κ → α) (k : κ) (d : α)
    (i : κ) : addF f k d i = if i = k then f i + d else f i := rfl

theorem addF_same {κ α : Type} [DecidableEq κ] [Add α] (f : κ → α) (k : κ) (d : α) :
    addF f k d k = f k + d := by simp [addF]

theorem addF_other {κ α : Type} [DecidableEq κ] [Add α] (f : κ → α) (k i : κ) (d : α)
    (h : i ≠ k) : addF f k d i = f i := by simp [addF, h]

theorem addF_addF {κ α : Type} [DecidableEq κ] [AddSemigroup α] (f : κ → α) (k : κ)
    (d e : α) : addF (addF f k d) k e = addF f k (d + e) := by
  funext i
  by_cases h : i = k <;> simp [addF, h, add_assoc]

theorem addF_zero {κ α : Type} [DecidableEq κ] [AddMonoid α] (f : κ → α) (k : κ) :
    addF f k 0 = f := by
  funext i
  by_cases h : i = k <;> simp [addF, h]

theorem addF_swap {κ α : Type} [DecidableEq κ] [AddCommSemigroup α] (f : κ → α)
    (k k' : κ) (d e : α) : addF (addF f k d) k' e = addF (addF f k' e) k d := by
  funext i
  by_cases h : i = k <;> by_cases h' : i = k' <;>
    simp [addF, h, h'] <;> split <;> simp_all [add_right_comm]

theorem Stocks.extPoint (a b : Stocks)
    (h1 : ∀ i, a.stock_cut i = b.stock_cut i)
    (h2 : ∀ i, a.stock_cnc_tools i = b.stock_cnc_tools i)
    (h3 : ∀ i, a.quantity i = b.quantity i)
    (h4 : ∀ k, a.bucket k = b.bucket k) : a = b := by
  cases a; cases b
  simp only [Stocks.mk.injEq]
  exact ⟨funext h1, funext h2, funext h3, funext h4⟩

@[simp] theorem addCut_cut (s : Stocks) (p : Nat) (d : Int) :
    (s.addCut p d).stock_cut = addF s.stock_cut p d := rfl
@[simp] theorem addCut_cnc (s : Stocks) (p : Nat) (d : Int) :
    (s.addCut p d).stock_cnc_tools = s.stock_cnc_tools := rfl
@[simp] theorem addCut_qty (s : Stocks) (p : Nat) (d : Int) :
    (s.addCut p d).quantity = s.quantity := rfl
@[simp] theorem addCut_bucket (s : Stocks) (p : Nat) (d : Int) :
    (s.addCut p d).bucket = s.bucket := rfl

@[simp] theorem addCnc_cut (s : Stocks) (p : Nat) (d : Int) :
    (s.addCnc p d).stock_cut = s.stock_cut := rfl
@[simp] theorem addCnc_cnc (s : Stocks) (p : Nat) (d : Int) :
    (s.addCnc p d).stock_cnc_tools = addF s.stock_cnc_tools p d := rfl
@[simp] theorem addCnc_qty (s : Stocks) (p : Nat) (d : Int) :
    (s.addCnc p d).quantity = s.quantity := rfl
@[simp] theorem addCnc_bucket (s : Stocks) (p : Nat) (d : Int) :
    (s.addCnc p d).bucket = s.bucket := rfl

@[simp] theorem addQty_cut (s : Stocks) (m : Nat) (d : Rat) :
    (s.addQty m d).stock_cut = s.stock_cut := rfl
@[simp] theorem addQty_cnc (s : Stocks) (m : Nat) (d : Rat) :
    (s.addQty m d).stock_cnc_tools = s.stock_cnc_tools := rfl
@[simp] theorem addQty_qty (s : Stocks) (m : Nat) (d : Rat) :
    (s.addQty m d).quantity = addF s.quantity m d := rfl
@[simp] theorem addQty_bucket (s : Stocks) (m : Nat) (d : Rat) :
    (s.addQty m d).bucket = s.bucket := rfl

@[simp] theorem addBucket_cut (s : Stocks) (k : Nat × SectionChoices) (d : Int) :
    (s.addBucket k d).stock_cut = s.stock_cut := rfl
@[simp] theorem addBucket_cnc (s : Stocks) (k : Nat × SectionChoices) (d : Int) :
    (s.addBucket k d).stock_cnc_tools = s.stock_cnc_tools := rfl
@[simp] theorem addBucket_qty (s : Stocks) (k : Nat × SectionChoices) (d : Int) :
    (s.addBucket k d).quantity = s.quantity := rfl
@[simp] theorem addBucket_bucket (s : Stocks) (k : Nat × SectionChoices) (d : Int) :
    (s.addBucket k d).bucket = addF s.bucket k d := rfl

theorem addCnc_addCnc (s : Stocks) (p : Nat) (d e : Int) :
    (s.addCnc p d).addCnc p e = s.addCnc p (d + e) := by
  apply Stocks.extPoint <;> intro i <;> simp [addF_addF]

theorem addCnc_zero (s : Stocks) (p : Nat) : s.addCnc p 0 = s := by
  apply Stocks.extPoint <;> intro i <;> simp [addF_zero]

theorem addQty_addQty (s : Stocks) (m : Nat) (d e : Rat) :
    (s.addQty m d).addQty m e = s.addQty m (d + e) := by
  apply Stocks.extPoint <;> intro i <;> simp [addF_addF]

theorem addQty_zero (s : Stocks) (m : Nat) : s.addQty m 0 = s := by
  apply Stocks.extPoint <;> intro i <;> simp [addF_zero]

theorem addCnc_comm (s : Stocks) (p q : Nat) (d e : Int) :
    (s.addCnc p d).addCnc q e = (s.addCnc q e).addCnc p d := by
  apply Stocks.extPoint <;> intro i <;> simp [addF_swap]

theorem addQty_addCnc (s : Stocks) (m p : Nat) (d : Rat) (e : Int) :
    (s.addQty m d).addCnc p e = (s.addCnc p e).addQty m d := rfl

theorem addQty_comm (s : Stocks) (m n : Nat) (d e : Rat) :
    (s.addQty m d).addQty n e = (s.addQty n e).addQty m d := by
  apply Stocks.extPoint <;> intro i <;> simp [addF_swap]

theorem addBucket_addCnc (s : Stocks) (k : Nat × SectionChoices) (p : Nat)
    (d e : Int) : (s.addBucket k d).addCnc p e = (s.addCnc p e).addBucket k d := rfl

theorem addBucket_addQty (s : Stocks) (k : Nat × SectionChoices) (m : Nat)
    (d : Int) (e : Rat) : (s.addBucket k d).addQty m e = (s.addQty m e).addBucket k d := rfl

theorem addBucket_addBucket (s : Stocks) (k : Nat × SectionChoices) (d e : Int) :
    (s.addBucket k d).addBucket k e = s.addBucket k (d + e) := by
  apply Stocks.extPoint <;> intro i <;> simp [addF_addF]

theorem addBucket_zero (s : Stocks) (k : Nat × SectionChoices) :
    s.addBucket k 0 = s := by
  apply Stocks.extPoint <;> intro i <;> simp [addF_zero]

theorem addBucket_comm (s : Stocks) (k k' : Nat × SectionChoices) (d e : Int) :
    (s.addBucket k d).addBucket k' e = (s.addBucket k' e).addBucket k d := by
  apply Stocks.extPoint <;> intro i <;> simp [addF_swap]

theorem addCut_comm (s : Stocks) (p q : Nat) (d e : Int) :
    (s.addCut p d).addCut q e = (s.addCut q e).addCut p d := by
  apply Stocks.extPoint <;> intro i <;> simp [addF_swap]

theorem addCut_addCut (s : Stocks) (p : Nat) (d e : Int) :
    (s.addCut p d).addCut p e = s.addCut p (d + e) := by
  apply Stocks.extPoint <;> intro i <;> simp [addF_addF]

theorem addCut_zero (s : Stocks) (p : Nat) : s.addCut p 0 = s := by
  apply Stocks.extPoint <;> intro i <;> simp [addF_zero]

@[simp] theorem except_pure_eq {ε α : Type} (a : α) :
    (pure a : Except ε α) = .ok a := rfl

@[simp] theorem except_bind_ok {ε α β : Type} (a : α) (f : α → Except ε β) :
    (Except.ok a >>= f) = f a := rfl

@[simp] theorem except_bind_error {ε α β : Type} (e : ε) (f : α → Except ε β) :
    (Except.error e >>= f : Except ε β) = .error e := rfl

/-! ## Consume / restore inverse machinery for the assembly BOM -/

theorem restore_components_cons (c : Component) (cs : List Component) (s : Stocks) :
    restore_components (c :: cs) s =
      restore_components cs
        (if c.qty ≤ 0 then s
         else match resolve_component_part c with
           | none => s
           | some pid => s.addCnc pid c.qty) := rfl

theorem restore_materials_cons (m : MaterialReq) (ms : List MaterialReq) (s : Stocks) :
    restore_materials (m :: ms) s =
      restore_materials ms (s.addQty m.material_id m.qty) := rfl

theorem restore_components_addCnc (cs : List Component) (s : Stocks) (p : Nat)
    (d : Int) : restore_components cs (s.addCnc p d) =
      (restore_components cs s).addCnc p d := by
  induction cs generalizing s with
  | nil => rfl
  | cons c cs ih =>
    rw [restore_components_cons, restore_components_cons]
    by_cases hq : c.qty ≤ 0
    · simp only [if_pos hq]; exact ih s
    · simp only [if_neg hq]
      cases hr : resolve_component_part c with
      | none => exact ih s
      | some pid =>
        show restore_components cs ((s.addCnc p d).addCnc pid c.qty) =
          (restore_components cs (s.addCnc pid c.qty)).addCnc p d
        rw [addCnc_comm]; exact ih _

theorem restore_components_addQty (cs : List Component) (s : Stocks) (m : Nat)
    (d : Rat) : restore_components cs (s.addQty m d) =
      (restore_components cs s).addQty m d := by
  induction cs generalizing s with
  | nil => rfl
  | cons c cs ih =>
    rw [restore_components_cons, restore_components_cons]
    by_cases hq : c.qty ≤ 0
    · simp only [if_pos hq]; exact ih s
    · simp only [if_neg hq]
      cases hr : resolve_component_part c with
      | none => exact ih s
      | some pid =>
        show restore_components cs ((s.addQty m d).addCnc pid c.qty) =
          (restore_components cs (s.addCnc pid c.qty)).addQty m d
        rw [addQty_addCnc]; exact ih _

theorem restore_components_addBucket (cs : List Component) (s : Stocks)
    (k : Nat × SectionChoices) (d : Int) :
    restore_components cs (s.addBucket k d) =
      (restore_components cs s).addBucket k d := by
  induction cs generalizing s with
  | nil => rfl
  | cons c cs ih =>
    rw [restore_components_cons, restore_components_cons]
    by_cases hq : c.qty ≤ 0
    · simp only [if_pos hq]; exact ih s
    · simp only [if_neg hq]
      cases hr : resolve_component_part c with
      | none => exact ih s
      | some pid =>
        show restore_components cs ((s.addBucket k d).addCnc pid c.qty) =
          (restore_components cs (s.addCnc pid c.qty)).addBucket k d
        rw [addBucket_addCnc]; exact ih _

theorem restore_materials_addQty (ms : List MaterialReq) (s : Stocks) (m : Nat)
    (d : Rat) : restore_materials ms (s.addQty m d) =
      (restore_materials ms s).addQty m d := by
  induction ms generalizing s with
  | nil => rfl
  | cons mm ms ih =>
    rw [restore_materials_cons, restore_materials_cons, addQty_comm]
    exact ih _

theorem restore_materials_addBucket (ms : List MaterialReq) (s : Stocks)
    (k : Nat × SectionChoices) (d : Int) :
    restore_materials ms (s.addBucket k d) =
      (restore_materials ms s).addBucket k d := by
  induction ms generalizing s with
  | nil => rfl
  | cons mm ms ih =>
    rw [restore_materials_cons, restore_materials_cons, addBucket_addQty]
    exact ih _

theorem restore_materials_addCnc (ms : List MaterialReq) (s : Stocks) (p : Nat)
    (d : Int) : restore_materials ms (s.addCnc p d) =
      (restore_materials ms s).addCnc p d := by
  induction ms generalizing s with
  | nil => rfl
  | cons mm ms ih =>
    rw [restore_materials_cons, restore_materials_cons, ← addQty_addCnc]
    exact ih _

theorem restore_materials_restore_components (ms : List MaterialReq)
    (cs : List Component) (s : Stocks) :
    restore_materials ms (restore_components cs s) =
      restore_components cs (restore_materials ms s) := by
  induction ms generalizing s with
  | nil => rfl
  | cons mm ms ih =>
    rw [restore_materials_cons, restore_materials_cons,
      ← restore_components_addQty, ih]

theorem consume_components_cons_skip (c : Component) (cs : List Component)
    (s : Stocks) (h : c.part_name.trim = "" ∨ c.qty ≤ 0) :
    consume_components (c :: cs) s = consume_components cs s := by
  simp [consume_components, List.foldlM_cons, h]

theorem consume_components_cons_none (c : Component) (cs : List Component)
    (s : Stocks) (hskip : ¬(c.part_name.trim = "" ∨ c.qty ≤ 0))
    (hres : resolve_component_part c = none) :
    consume_components (c :: cs) s = consume_components cs s := by
  simp [consume_components, List.foldlM_cons, hskip, hres]

theorem consume_components_cons_some (c : Component) (cs : List Component)
    (s : Stocks) (pid : Nat) (hskip : ¬(c.part_name.trim = "" ∨ c.qty ≤ 0))
    (hres : resolve_component_part c = some pid) :
    consume_components (c :: cs) s =
      if s.stock_cnc_tools pid < c.qty then .error .part_insufficient
      else consume_components cs (s.addCnc pid (-c.qty)) := by
  by_cases hlt : s.stock_cnc_tools pid < c.qty <;>
    simp [consume_components, List.foldlM_cons, hskip, hres, hlt]

theorem consume_materials_cons (m : MaterialReq) (ms : List MaterialReq) (s : Stocks) :
    consume_materials (m :: ms) s =
      if s.quantity m.material_id < m.qty then .error .material_insufficient
      else consume_materials ms (s.addQty m.material_id (-m.qty)) := by
  by_cases hlt : s.quantity m.material_id < m.qty <;>
    simp [consume_materials, List.foldlM_cons, hlt]

/-- Restoring a component list undoes a successful consumption of the same
list: the skip conditions of `_restore_consumed_inputs` and of the assembly
consume loop coincide (an empty stripped name makes `_resolve_component_part`
return no part). -/
theorem consume_components_inverse (cs : List Component) (s t : Stocks)
    (h : consume_components cs s = .ok t) : restore_components cs t = s := by
  induction cs generalizing s with
  | nil =>
    simp only [consume_components, List.foldlM_nil, except_pure_eq] at h
    cases h
    rfl
  | cons c cs ih =>
    by_cases hskip : c.part_name.trim = "" ∨ c.qty ≤ 0
    · rw [consume_components_cons_skip c cs s hskip] at h
      rw [restore_components_cons]
      rcases hskip with hname | hq
      · have hres : resolve_component_part c = none := by
          simp [resolve_component_part, hname]
        by_cases hq : c.qty ≤ 0
        · rw [if_pos hq]; exact ih s h
        · rw [if_neg hq, hres]; exact ih s h
      · rw [if_pos hq]; exact ih s h
    · have hq : ¬c.qty ≤ 0 := by
        push_neg at hskip ⊢; omega
      cases hres : resolve_component_part c with
      | none =>
        rw [consume_components_cons_none c cs s hskip hres] at h
        rw [restore_components_cons, if_neg hq, hres]
        exact ih s h
      | some pid =>
        rw [consume_components_cons_some c cs s pid hskip hres] at h
        by_cases hlt : s.stock_cnc_tools pid < c.qty
        · rw [if_pos hlt] at h; simp at h
        · rw [if_neg hlt] at h
          have hshow : restore_components (c :: cs) t =
              restore_components cs (t.addCnc pid c.qty) := by
            rw [restore_components_cons, if_neg hq, hres]
          rw [hshow, restore_components_addCnc, ih _ h, addCnc_addCnc]
          simp [addCnc_zero]

/-- Restoring a material list undoes a successful consumption of the same
list. -/
theorem consume_materials_inverse (ms : List MaterialReq) (s t : Stocks)
    (h : consume_materials ms s = .ok t) : restore_materials ms t = s := by
  induction ms generalizing s with
  | nil =>
    simp only [consume_materials, List.foldlM_nil, except_pure_eq] at h
    cases h
    rfl
  | cons m ms ih =>
    rw [consume_materials_cons m ms s] at h
    by_cases hlt : s.quantity m.material_id < m.qty
    · rw [if_pos hlt] at h; simp at h
    · rw [if_neg hlt] at h
      rw [restore_materials_cons, restore_materials_addQty, ih _ h, addQty_addQty]
      simp [addQty_zero]

/-- Error-aborting folds preserve any invariant their steps preserve. -/
theorem foldlM_ok_preserve {σ α ε : Type} (P : σ → Prop) (f : σ → α → Except ε σ)
    (hf : ∀ s a t, P s → f s a = .ok t → P t) :
    ∀ (l : List α) (s t : σ), P s → l.foldlM f s = .ok t → P t := by
  intro l
  induction l with
  | nil =>
    intro s t hP h
    simp only [List.foldlM_nil, except_pure_eq] at h
    cases h
    exact hP
  | cons a l ih =>
    intro s t hP h
    rw [List.foldlM_cons] at h
    cases hfa : f s a with
    | error e => rw [hfa] at h; simp at h
    | ok s1 =>
      rw [hfa] at h
      simp only [except_bind_ok] at h
      exact ih s1 t (hf s a s1 hP hfa) h

/-! ## Branch-reduction helpers for apply/rollback -/

theorem isProductField_not_part (sv : SectionChoices) (h : isProductField sv = true) :
    ¬(sv = .cutting ∨ sv = .cnc_tools) := by
  cases sv <;> simp_all [isProductField]

theorem increment_current_product (log : PLog) (s : Stocks) (p : Nat)
    (hprod : log.product = some p) (hf : isProductField log.sec = true) :
    increment_current log s = .ok (s.addBucket (p, log.sec) 1) := by
  have hnp := isProductField_not_part _ hf
  simp [increment_current, hnp, hprod, hf]

theorem adjust_product_stock_none (log : PLog) (d : Int) (s : Stocks) :
    adjust_product_stock log none d s = s := by
  cases h : log.product <;> simp [adjust_product_stock, h]

theorem adjust_product_stock_some (log : PLog) (p : Nat) (sv : SectionChoices)
    (d : Int) (s : Stocks) (hprod : log.product = some p) (hd : d ≠ 0)
    (hf : isProductField sv = true) :
    adjust_product_stock log (some sv) d s = s.addBucket (p, sv) d := by
  simp [adjust_product_stock, hprod, hd, hf]

theorem adjust_product_stock_nofield (log : PLog) (sv : SectionChoices)
    (d : Int) (s : Stocks) (hf : isProductField sv = false) :
    adjust_product_stock log (some sv) d s = s := by
  cases h : log.product <;> simp [adjust_product_stock, h, hf]

/-! ## C1 variant lemmas: rollback is a stock-level inverse of apply -/

theorem c1_part_case (env : Env) (log : PLog) (st st' : St) (pid : Nat)
    (prev : Option SectionChoices)
    (hpart : log.part = some pid) (hprod : log.product = none)
    (hok : apply_inventory env log st = .ok st') :
    (rollback_inventory env log prev st').stocks = st.stocks := by
  obtain ⟨lpart, lprod, lhas, lpq, lsq, lsec, lscrap, lext⟩ := log
  simp only at hpart hprod
  subst hpart hprod
  simp only [apply_inventory] at hok
  by_cases h1 : lsec = .cutting
  · subst h1
    rw [if_pos rfl] at hok
    by_cases hneg : st.stocks.stock_cut pid + (lpq : Int) - (lsq : Int) < 0
    · rw [if_pos hneg] at hok; cases hok
    · rw [if_neg hneg] at hok
      cases hok
      apply Stocks.extPoint <;> intro i <;>
        simp [rollback_inventory, reverse_part_log, addF] <;> omega
  · by_cases h2 : lsec = .cnc_tools
    · subst h2
      rw [if_neg h1, if_pos rfl] at hok
      by_cases hneg : st.stocks.stock_cut pid < (lpq : Int) + (lsq : Int)
      · rw [if_pos hneg] at hok; cases hok
      · rw [if_neg hneg] at hok
        cases hok
        apply Stocks.extPoint <;> intro i <;>
          simp [rollback_inventory, reverse_part_log, addF] <;> omega
    · rw [if_neg h1, if_neg h2] at hok
      cases hok
      apply Stocks.extPoint <;> intro i <;>
        simp [rollback_inventory, reverse_part_log, h1, h2]

theorem c1_external_case (env : Env) (log : PLog) (st st' : St) (p : Nat)
    (hprod : log.product = some p) (hjob : log.hasJob = true)
    (hsec : isProductField log.sec = true) (hext : log.is_external = true)
    (hok : apply_inventory env log st = .ok st') :
    (rollback_inventory env log st.job.current_section st').stocks = st.stocks := by
  obtain ⟨lpart, lprod, lhas, lpq, lsq, lsec, lscrap, lext⟩ := log
  simp only at hprod hjob hsec hext
  subst hprod hjob hext
  cases lpart <;>
  · simp only [apply_inventory] at hok
    rw [if_neg (by simp), if_pos (by trivial),
      increment_current_product _ _ p rfl hsec] at hok
    simp only [except_bind_ok, Except.ok.injEq] at hok
    subst hok
    apply Stocks.extPoint <;> intro i <;>
      simp [rollback_inventory, adjust_product_stock, hsec, addF] <;>
      split <;> simp_all

theorem dec_prev_product_bucket_none (log : PLog) (job : JobState) (s : Stocks)
    (h : job.current_section = none) : dec_prev_product_bucket log job s = .ok s := by
  simp [dec_prev_product_bucket, h]

theorem dec_prev_product_bucket_field (log : PLog) (job : JobState) (s : Stocks)
    (p : Nat) (pv : SectionChoices) (hprod : log.product = some p)
    (hcur : job.current_section = some pv) (hf : isProductField pv = true) :
    dec_prev_product_bucket log job s =
      if s.bucket (p, pv) < 1 then .error .product_insufficient
      else .ok (s.addBucket (p, pv) (-1)) := by
  by_cases hlt : s.bucket (p, pv) < 1 <;>
    simp [dec_prev_product_bucket, hcur, hprod, hf, hlt]

theorem dec_prev_product_bucket_nofield (log : PLog) (job : JobState) (s : Stocks)
    (pv : SectionChoices) (hcur : job.current_section = some pv)
    (hf : isProductField pv = false) :
    dec_prev_product_bucket log job s = .ok s := by
  cases hprod : log.product <;>
    simp [dec_prev_product_bucket, hcur, hprod, hf]

/-- The job-label chain of the deposit-normal / normal branches keeps any
label other than `in_progress` unchanged. -/
theorem apply_label_chain (j : JobState) (b : Bool) (sec : SectionChoices)
    (h : j.job_label ≠ .in_progress) :
    (promote_label_sync { (if b then close_job j else j) with
        current_section := some sec, is_external_entry := false }).job_label =
      j.job_label := by
  cases b <;> simp only [close_job, promote_label_sync, if_true, if_false,
    Bool.false_eq_true, reduceIte] <;>
    split <;> simp_all <;> split <;> simp_all

theorem c1_deposit_normal_case (env : Env) (log : PLog) (st st' : St) (p : Nat)
    (hprod : log.product = some p) (hjob : log.hasJob = true)
    (hsec : isProductField log.sec = true) (hext : log.is_external = false)
    (hscrap : log.is_scrap = false) (hlabel : st.job.job_label = .deposit)
    (hok : apply_inventory env log st = .ok st') :
    (rollback_inventory env log st.job.current_section st').stocks = st.stocks := by
  obtain ⟨lpart, lprod, lhas, lpq, lsq, lsec, lscrap, lext⟩ := log
  simp only at hprod hjob hsec hext hscrap
  subst hprod hjob hext hscrap
  have hdep : st.job.job_label ≠ .in_progress := by rw [hlabel]; simp
  cases lpart <;>
  · simp only [apply_inventory] at hok
    rw [if_neg (by simp), if_neg (by simp), if_pos hlabel, if_neg (by simp)] at hok
    cases hcur : st.job.current_section with
    | none =>
      rw [hcur] at hok
      simp only [Option.isNone_none, ite_true, except_pure_eq,
        except_bind_ok] at hok
      rw [increment_current_product _ _ p rfl hsec] at hok
      simp only [except_bind_ok, Except.ok.injEq] at hok
      subst hok
      simp only [rollback_inventory]
      rw [if_neg (by simp), if_neg (by simp)]
      rw [if_pos (by rw [apply_label_chain _ _ _ hdep, hlabel])]
      rw [if_neg (by simp)]
      simp only [Option.isNone_none, ite_true]
      rw [adjust_product_stock_some _ p lsec (-1) _ rfl (by omega) hsec]
      apply Stocks.extPoint <;> intro i <;> simp [addF] <;> split <;> simp_all
    | some pv =>
      rw [hcur] at hok
      simp only [Option.isNone_some, Bool.false_eq_true, ite_false] at hok
      by_cases hpf : isProductField pv = true
      · rw [dec_prev_product_bucket_field _ _ _ p pv rfl hcur hpf] at hok
        by_cases hlt : st.stocks.bucket (p, pv) < 1
        · rw [if_pos hlt] at hok; simp at hok
        · rw [if_neg hlt] at hok
          simp only [except_bind_ok] at hok
          rw [increment_current_product _ _ p rfl hsec] at hok
          simp only [except_bind_ok, Except.ok.injEq] at hok
          subst hok
          simp only [rollback_inventory]
          rw [if_neg (by simp), if_neg (by simp)]
          rw [if_pos (by rw [apply_label_chain _ _ _ hdep, hlabel])]
          rw [if_neg (by simp)]
          simp only [Option.isNone_some, ite_false]
          rw [adjust_product_stock_some _ p pv 1 _ rfl (by omega) hpf,
            adjust_product_stock_some _ p lsec (-1) _ rfl (by omega) hsec]
          apply Stocks.extPoint <;> intro i <;> simp [addF] <;>
            split_ifs <;> simp_all <;> omega
      · have hpf' : isProductField pv = false := by
          revert hpf; cases isProductField pv <;> simp
        rw [dec_prev_product_bucket_nofield _ _ _ pv hcur hpf'] at hok
        simp only [except_bind_ok] at hok
        rw [increment_current_product _ _ p rfl hsec] at hok
        simp only [except_bind_ok, Except.ok.injEq] at hok
        subst hok
        simp only [rollback_inventory]
        rw [if_neg (by simp), if_neg (by simp)]
        rw [if_pos (by rw [apply_label_chain _ _ _ hdep, hlabel])]
        rw [if_neg (by simp)]
        simp only [Option.isNone_some, ite_false]
        rw [adjust_product_stock_nofield _ pv 1 _ hpf',
          adjust_product_stock_some _ p lsec (-1) _ rfl (by omega) hsec]
        apply Stocks.extPoint <;> intro i <;> simp [addF] <;> split <;> simp_all

theorem decrement_previous_cur_none (log : PLog) (job : JobState) (s : Stocks)
    (h : job.current_section = none) : decrement_previous log job true s = .ok s := by
  simp [decrement_previous, h]

theorem decrement_previous_assembly (log : PLog) (job : JobState) (s : Stocks)
    (h : log.sec = .assembly) : decrement_previous log job true s = .ok s := by
  cases hcur : job.current_section <;> simp [decrement_previous, hcur, h]

theorem decrement_previous_field (log : PLog) (job : JobState) (s : Stocks)
    (p : Nat) (pv : SectionChoices) (hprod : log.product = some p)
    (hcur : job.current_section = some pv) (hsecA : ¬log.sec = .assembly)
    (hf : isProductField pv = true) :
    decrement_previous log job true s =
      if s.bucket (p, pv) < 1 then .error .product_insufficient
      else .ok (s.addBucket (p, pv) (-1)) := by
  have hnp := isProductField_not_part _ hf
  by_cases hlt : s.bucket (p, pv) < 1 <;>
    simp [decrement_previous, hcur, hsecA, hnp, hprod, hf, hlt]

theorem decrement_previous_prevpart_nopart (log : PLog) (job : JobState) (s : Stocks)
    (pv : SectionChoices) (hcur : job.current_section = some pv)
    (hsecA : ¬log.sec = .assembly) (hpv : pv = .cutting ∨ pv = .cnc_tools)
    (hpart : log.part = none) : decrement_previous log job true s = .ok s := by
  simp [decrement_previous, hcur, hsecA, hpv, hpart]

theorem decrement_previous_cut_part (log : PLog) (job : JobState) (s : Stocks)
    (pid : Nat) (hcur : job.current_section = some .cutting)
    (hsecA : ¬log.sec = .assembly) (hpart : log.part = some pid) :
    decrement_previous log job true s =
      if s.stock_cut pid < 1 then .error .part_insufficient
      else .ok (s.addCut pid (-1)) := by
  by_cases hlt : s.stock_cut pid < 1 <;>
    simp [decrement_previous, hcur, hsecA, hpart, hlt]

theorem decrement_previous_cnc_part (log : PLog) (job : JobState) (s : Stocks)
    (pid : Nat) (hcur : job.current_section = some .cnc_tools)
    (hsecA : ¬log.sec = .assembly) (hpart : log.part = some pid) :
    decrement_previous log job true s =
      if s.stock_cnc_tools pid < 1 then .error .part_insufficient
      else .ok (s.addCnc pid (-1)) := by
  by_cases hlt : s.stock_cnc_tools pid < 1 <;>
    simp [decrement_previous, hcur, hsecA, hpart, hlt]

/-- Assembly restore undoes assembly consumption: components and materials
act on disjoint counters. -/
theorem consume_restore_assembly (cs : List Component) (ms : List MaterialReq)
    (s t u : Stocks) (h1 : consume_components cs s = .ok t)
    (h2 : consume_materials ms t = .ok u) :
    restore_materials ms (restore_components cs u) = s := by
  rw [restore_materials_restore_components, consume_materials_inverse ms t u h2,
    consume_components_inverse cs s t h1]

/-- Sections with no `ProductStock` column are exactly cutting and cnc. -/
theorem not_isProductField (pv : SectionChoices) (h : isProductField pv = false) :
    pv = .cutting ∨ pv = .cnc_tools := by
  cases pv <;> simp_all [isProductField]

theorem c1_deposit_scrap_case (env : Env) (log : PLog) (st st' : St) (p : Nat)
    (hprod : log.product = some p) (hjob : log.hasJob = true)
    (hsec : isProductField log.sec = true) (hext : log.is_external = false)
    (hscrap : log.is_scrap = true) (hlabel : st.job.job_label = .deposit)
    (hsecA : log.sec ≠ .assembly)
    (hsafe : ∀ pv, st.job.current_section = some pv →
      isProductField pv = true ∨ log.part = none)
    (hok : apply_inventory env log st = .ok st') :
    (rollback_inventory env log st.job.current_section st').stocks = st.stocks := by
  obtain ⟨lpart, lprod, lhas, lpq, lsq, lsec, lscrap, lext⟩ := log
  simp only at hprod hjob hsec hext hscrap hsecA hsafe
  subst hprod hjob hext hscrap
  simp only [apply_inventory] at hok
  rw [if_neg (by simp), if_neg (by simp), if_pos hlabel, if_pos (by trivial)] at hok
  cases hcur : st.job.current_section with
  | none =>
    rw [hcur] at hok
    simp only [Option.isNone_none, ite_true, except_pure_eq, except_bind_ok,
      Except.ok.injEq] at hok
    subst hok
    simp only [rollback_inventory]
    rw [if_neg (by simp), if_neg (by simp), if_neg (by simp [hlabel]),
      if_pos (by trivial), if_neg hsecA]
    simp [Option.isNone_none]
  | some pv =>
    rw [hcur] at hok
    simp only [Option.isNone_some, Bool.false_eq_true, ite_false] at hok
    rcases hsafe pv hcur with hpf | hpart
    · rw [dec_prev_product_bucket_field _ _ _ p pv rfl hcur hpf] at hok
      by_cases hlt : st.stocks.bucket (p, pv) < 1
      · rw [if_pos hlt] at hok; simp at hok
      · rw [if_neg hlt] at hok
        simp only [except_bind_ok, Except.ok.injEq] at hok
        subst hok
        simp only [rollback_inventory]
        rw [if_neg (by simp), if_neg (by simp), if_neg (by simp [hlabel]),
          if_pos (by trivial), if_neg hsecA]
        simp only [Option.isNone_some, Bool.false_eq_true, ite_false]
        have hnp := isProductField_not_part _ hpf
        simp only [reverse_decrement_previous, if_neg hsecA, if_neg hnp]
        rw [adjust_product_stock_some _ p pv 1 _ rfl (by omega) hpf]
        apply Stocks.extPoint <;> intro i <;> simp [addF] <;> split <;> simp_all
    · subst hpart
      by_cases hpf : isProductField pv = true
      · rw [dec_prev_product_bucket_field _ _ _ p pv rfl hcur hpf] at hok
        by_cases hlt : st.stocks.bucket (p, pv) < 1
        · rw [if_pos hlt] at hok; simp at hok
        · rw [if_neg hlt] at hok
          simp only [except_bind_ok, Except.ok.injEq] at hok
          subst hok
          simp only [rollback_inventory]
          rw [if_neg (by simp), if_neg (by simp), if_neg (by simp [hlabel]),
            if_pos (by trivial), if_neg hsecA]
          simp only [Option.isNone_some, Bool.false_eq_true, ite_false]
          have hnp := isProductField_not_part _ hpf
          simp only [reverse_decrement_previous, if_neg hsecA, if_neg hnp]
          rw [adjust_product_stock_some _ p pv 1 _ rfl (by omega) hpf]
          apply Stocks.extPoint <;> intro i <;> simp [addF] <;> split <;> simp_all
      · have hpf' : isProductField pv = false := by
          revert hpf; cases isProductField pv <;> simp
        rw [dec_prev_product_bucket_nofield _ _ _ pv hcur hpf'] at hok
        simp only [except_bind_ok, Except.ok.injEq] at hok
        subst hok
        simp only [rollback_inventory]
        rw [if_neg (by simp), if_neg (by simp), if_neg (by simp [hlabel]),
          if_pos (by trivial), if_neg hsecA]
        simp only [Option.isNone_some, Bool.false_eq_true, ite_false]
        simp [reverse_decrement_previous, hsecA, not_isProductField pv hpf']

theorem promote_label_sync_label_cases (j : JobState) :
    (promote_label_sync j).job_label = j.job_label ∨
      (promote_label_sync j).job_label = .completed := by
  unfold promote_label_sync
  split <;> simp

theorem close_job_label_cases (j : JobState) :
    (close_job j).job_label = j.job_label ∨ (close_job j).job_label = .completed := by
  unfold close_job
  by_cases h1 : j.status = .warranty <;>
    by_cases h2 : j.job_label = .in_progress <;>
      simp [h1, h2]

/-- The post-close label of the normal / deposit-normal branches is either the
original label or `completed`. -/
theorem label_chain_mem (j : JobState) (b : Bool) (sv : SectionChoices) :
    (promote_label_sync { (if b then close_job j else j) with
        current_section := some sv, is_external_entry := false }).job_label =
      j.job_label ∨
    (promote_label_sync { (if b then close_job j else j) with
        current_section := some sv, is_external_entry := false }).job_label =
      .completed := by
  rcases promote_label_sync_label_cases { (if b then close_job j else j) with
      current_section := some sv, is_external_entry := false } with h1 | h1 <;>
    rw [h1]
  · cases b
    · left; rfl
    · show (close_job j).job_label = j.job_label ∨
        (close_job j).job_label = .completed
      exact close_job_label_cases j
  · right; rfl

theorem apply_label_chain_ne_dep (j : JobState) (b : Bool) (sv : SectionChoices)
    (h : j.job_label ≠ .deposit) :
    (promote_label_sync { (if b then close_job j else j) with
        current_section := some sv, is_external_entry := false }).job_label ≠
      .deposit := by
  rcases label_chain_mem j b sv with h1 | h1 <;> rw [h1] <;> simp_all

theorem c1_scrap_case (env : Env) (log : PLog) (st st' : St) (p : Nat)
    (hprod : log.product = some p) (hjob : log.hasJob = true)
    (hsec : isProductField log.sec = true) (hext : log.is_external = false)
    (hscrap : log.is_scrap = true) (hlabel : st.job.job_label ≠ .deposit)
    (hok : apply_inventory env log st = .ok st') :
    (rollback_inventory env log st.job.current_section st').stocks = st.stocks := by
  obtain ⟨lpart, lprod, lhas, lpq, lsq, lsec, lscrap, lext⟩ := log
  simp only at hprod hjob hsec hext hscrap
  subst hprod hjob hext hscrap
  simp only [apply_inventory] at hok
  rw [if_neg (by simp), if_neg (by simp), if_neg hlabel, if_pos (by trivial)] at hok
  by_cases hA : lsec = .assembly
  · subst hA
    rw [if_pos rfl] at hok
    cases hc : consume_components (get_components_for_product env (some p))
        st.stocks with
    | error e => rw [hc] at hok; simp at hok
    | ok t =>
      rw [hc] at hok
      simp only [except_bind_ok] at hok
      cases hm : consume_materials (get_materials_for_product env (some p)) t with
      | error e => rw [hm] at hok; simp at hok
      | ok u =>
        rw [hm] at hok
        simp only [except_bind_ok, Except.ok.injEq] at hok
        subst hok
        simp only [rollback_inventory]
        rw [if_neg (by simp), if_neg (by simp), if_neg (by simp),
          if_pos (by trivial), if_pos (by trivial)]
        show restore_consumed_inputs env _ u = st.stocks
        unfold restore_consumed_inputs
        exact consume_restore_assembly _ _ _ _ _ hc hm
  · rw [if_neg hA] at hok
    cases hcur : st.job.current_section with
    | none =>
      rw [decrement_previous_cur_none _ _ _ hcur] at hok
      simp only [except_bind_ok, Except.ok.injEq] at hok
      subst hok
      simp only [rollback_inventory]
      rw [if_neg (by simp), if_neg (by simp), if_neg (by simp),
        if_pos (by trivial), if_neg hA]
      simp [Option.isNone_none]
    | some pv =>
      by_cases hpf : isProductField pv = true
      · rw [decrement_previous_field _ _ _ p pv rfl hcur hA hpf] at hok
        by_cases hlt : st.stocks.bucket (p, pv) < 1
        · rw [if_pos hlt] at hok; simp at hok
        · rw [if_neg hlt] at hok
          simp only [except_bind_ok, Except.ok.injEq] at hok
          subst hok
          simp only [rollback_inventory]
          rw [if_neg (by simp), if_neg (by simp), if_neg (by simp),
            if_pos (by trivial), if_neg hA]
          simp only [Option.isNone_some, Bool.false_eq_true, ite_false]
          have hnp := isProductField_not_part _ hpf
          simp only [reverse_decrement_previous, if_neg hA, if_neg hnp]
          rw [adjust_product_stock_some _ p pv 1 _ rfl (by omega) hpf]
          apply Stocks.extPoint <;> intro i <;> simp [addF] <;> split <;> simp_all
      · have hpf' : isProductField pv = false := by
          revert hpf; cases isProductField pv <;> simp
        rcases not_isProductField pv hpf' with hcut | hcnc
        · subst hcut
          cases hlp : lpart with
          | none =>
            rw [decrement_previous_prevpart_nopart _ _ _ _ hcur hA
              (Or.inl rfl) hlp] at hok
            simp only [except_bind_ok, Except.ok.injEq] at hok
            subst hok
            simp only [rollback_inventory]
            rw [if_neg (by simp), if_neg (by simp), if_neg (by simp),
              if_pos (by trivial), if_neg hA]
            simp [reverse_decrement_previous, hA, hlp]
          | some pid =>
            rw [decrement_previous_cut_part _ _ _ pid hcur hA hlp] at hok
            by_cases hlt : st.stocks.stock_cut pid < 1
            · rw [if_pos hlt] at hok; simp at hok
            · rw [if_neg hlt] at hok
              simp only [except_bind_ok, Except.ok.injEq] at hok
              subst hok
              simp only [rollback_inventory]
              rw [if_neg (by simp), if_neg (by simp), if_neg (by simp),
                if_pos (by trivial), if_neg hA]
              simp only [Option.isNone_some, Bool.false_eq_true, ite_false]
              simp only [reverse_decrement_previous, if_neg hA, hlp]
              apply Stocks.extPoint <;> intro i <;>
                simp [addF] <;> split <;> simp_all
        · subst hcnc
          cases hlp : lpart with
          | none =>
            rw [decrement_previous_prevpart_nopart _ _ _ _ hcur hA
              (Or.inr rfl) hlp] at hok
            simp only [except_bind_ok, Except.ok.injEq] at hok
            subst hok
            simp only [rollback_inventory]
            rw [if_neg (by simp), if_neg (by simp), if_neg (by simp),
              if_pos (by trivial), if_neg hA]
            simp [reverse_decrement_previous, hA, hlp]
          | some pid =>
            rw [decrement_previous_cnc_part _ _ _ pid hcur hA hlp] at hok
            by_cases hlt : st.stocks.stock_cnc_tools pid < 1
            · rw [if_pos hlt] at hok; simp at hok
            · rw [if_neg hlt] at hok
              simp only [except_bind_ok, Except.ok.injEq] at hok
              subst hok
              simp only [rollback_inventory]
              rw [if_neg (by simp), if_neg (by simp), if_neg (by simp),
                if_pos (by trivial), if_neg hA]
              simp only [Option.isNone_some, Bool.false_eq_true, ite_false]
              simp only [reverse_decrement_previous, if_neg hA, hlp]
              apply Stocks.extPoint <;> intro i <;>
                simp [addF] <;> split <;> simp_all

theorem c1_normal_case (env : Env) (log : PLog) (st st' : St) (p : Nat)
    (hprod : log.product = some p) (hjob : log.hasJob = true)
    (hsec : isProductField log.sec = true) (hext : log.is_external = false)
    (hscrap : log.is_scrap = false) (hlabel : st.job.job_label ≠ .deposit)
    (hok : apply_inventory env log st = .ok st') :
    (rollback_inventory env log st.job.current_section st').stocks = st.stocks := by
  obtain ⟨lpart, lprod, lhas, lpq, lsq, lsec, lscrap, lext⟩ := log
  simp only at hprod hjob hsec hext hscrap
  subst hprod hjob hext hscrap
  simp only [apply_inventory] at hok
  rw [if_neg (by simp), if_neg (by simp), if_neg hlabel, if_neg (by simp)] at hok
  by_cases hA : lsec = .assembly
  · subst hA
    have hs1 : ∀ prev : Option SectionChoices, ∀ u : Stocks,
        consume_components (get_components_for_product env (some p)) st.stocks =
            .ok u →
        ∀ v : Stocks,
          consume_materials (get_materials_for_product env (some p)) u = .ok v →
          st' = { stocks := v.addBucket (p, .assembly) 1,
                  job := promote_label_sync
                    { (if ((some p : Option Nat).isSome &&
                          should_close st.job.allowed_sections .assembly) then
                        close_job st.job
                      else st.job) with
                      current_section := some SectionChoices.assembly,
                      is_external_entry := false } } →
          (rollback_inventory env
            { part := lpart, product := some p, hasJob := true,
              produced_qty := lpq, scrap_qty := lsq, sec := .assembly,
              is_scrap := false, is_external := false }
            prev st').stocks = st.stocks := by
      intro prev u hc v hm hst
      subst hst
      simp only [rollback_inventory]
      rw [if_neg (by simp), if_neg (by simp),
        if_neg (apply_label_chain_ne_dep st.job _ _ hlabel), if_neg (by simp)]
      have hrd : ∀ w : Stocks,
          (if (prev.isNone : Bool) then w
           else reverse_decrement_previous
             { part := lpart, product := some p, hasJob := true,
               produced_qty := lpq, scrap_qty := lsq, sec := .assembly,
               is_scrap := false, is_external := false }
             prev w) = w := by
        intro w
        cases prev with
        | none => simp
        | some pv => simp [reverse_decrement_previous]
      rw [hrd, if_pos (by simp)]
      rw [adjust_product_stock_some _ p .assembly (-1) _ rfl (by omega) (by rfl)]
      unfold restore_consumed_inputs
      rw [restore_components_addBucket, restore_materials_addBucket,
        consume_restore_assembly _ _ _ _ _ hc hm, addBucket_addBucket]
      simp [addBucket_zero]
    -- Reduce the leading decrement: it is skipped on first entry and a no-op
    -- for assembly otherwise.
    cases hcur : st.job.current_section with
    | none =>
      rw [hcur] at hok
      simp only [Option.isNone_none, ite_true, except_pure_eq, except_bind_ok] at hok
      rw [if_pos (by simp)] at hok
      cases hc : consume_components (get_components_for_product env (some p))
          st.stocks with
      | error e => rw [hc] at hok; simp at hok
      | ok u =>
        rw [hc] at hok
        simp only [except_bind_ok] at hok
        cases hm : consume_materials (get_materials_for_product env (some p)) u with
        | error e => rw [hm] at hok; simp at hok
        | ok v =>
          rw [hm] at hok
          simp only [except_bind_ok] at hok
          rw [if_neg (by simp)] at hok
          rw [increment_current_product _ _ p rfl hsec] at hok
          simp only [except_bind_ok, Except.ok.injEq] at hok
          exact hs1 none u hc v hm hok.symm
    | some pv =>
      rw [hcur] at hok
      simp only [Option.isNone_some, Bool.false_eq_true, ite_false] at hok
      rw [decrement_previous_assembly _ _ _ rfl] at hok
      simp only [except_bind_ok] at hok
      rw [if_pos (by simp)] at hok
      cases hc : consume_components (get_components_for_product env (some p))
          st.stocks with
      | error e => rw [hc] at hok; simp at hok
      | ok u =>
        rw [hc] at hok
        simp only [except_bind_ok] at hok
        cases hm : consume_materials (get_materials_for_product env (some p)) u with
        | error e => rw [hm] at hok; simp at hok
        | ok v =>
          rw [hm] at hok
          simp only [except_bind_ok] at hok
          rw [if_neg (by simp)] at hok
          rw [increment_current_product _ _ p rfl hsec] at hok
          simp only [except_bind_ok, Except.ok.injEq] at hok
          exact hs1 (some pv) u hc v hm hok.symm
  · -- Non-assembly normal movement: decrement previous, credit current.
    have hcnc : ¬(lsec = SectionChoices.cnc_tools ∧ lpart.isSome = true ∧
        (some p : Option Nat) = none) := by simp
    cases hcur : st.job.current_section with
    | none =>
      rw [hcur] at hok
      simp only [Option.isNone_none, ite_true, except_pure_eq, except_bind_ok] at hok
      rw [if_neg (by simp [hA])] at hok
      try simp only [except_pure_eq, except_bind_ok] at hok
      rw [if_neg (by simp)] at hok
      rw [increment_current_product _ _ p rfl hsec, if_neg hcnc] at hok
      simp only [except_bind_ok, Except.ok.injEq] at hok
      subst hok
      simp only [rollback_inventory]
      rw [if_neg (by simp), if_neg (by simp),
        if_neg (apply_label_chain_ne_dep st.job _ _ hlabel), if_neg (by simp)]
      simp only [Option.isNone_none, ite_true]
      rw [if_neg (by simp [hA]),
        adjust_product_stock_some _ p lsec (-1) _ rfl (by omega) hsec]
      apply Stocks.extPoint <;> intro i <;> simp [addF] <;> split <;> simp_all
    | some pv =>
      rw [hcur] at hok
      simp only [Option.isNone_some, Bool.false_eq_true, ite_false] at hok
      by_cases hpf : isProductField pv = true
      · rw [decrement_previous_field _ _ _ p pv rfl hcur hA hpf] at hok
        by_cases hlt : st.stocks.bucket (p, pv) < 1
        · rw [if_pos hlt] at hok; simp at hok
        · rw [if_neg hlt] at hok
          simp only [except_bind_ok] at hok
          rw [if_neg (by simp [hA])] at hok
          try simp only [except_pure_eq, except_bind_ok] at hok
          rw [if_neg (by simp)] at hok
          rw [increment_current_product _ _ p rfl hsec, if_neg hcnc] at hok
          simp only [except_bind_ok, Except.ok.injEq] at hok
          subst hok
          simp only [rollback_inventory]
          rw [if_neg (by simp), if_neg (by simp),
            if_neg (apply_label_chain_ne_dep st.job _ _ hlabel), if_neg (by simp)]
          simp only [Option.isNone_some, Bool.false_eq_true, ite_false]
          have hnp := isProductField_not_part _ hpf
          simp only [reverse_decrement_previous, if_neg hA, if_neg hnp]
          rw [adjust_product_stock_some _ p pv 1 _ rfl (by omega) hpf,
            if_neg (by simp [hA]),
            adjust_product_stock_some _ p lsec (-1) _ rfl (by omega) hsec]
          apply Stocks.extPoint <;> intro i <;> simp [addF] <;>
            split_ifs <;> simp_all <;> omega
      · have hpf' : isProductField pv = false := by
          revert hpf; cases isProductField pv <;> simp
        rcases not_isProductField pv hpf' with hpvc | hpvc
        · subst hpvc
          cases hlp : lpart with
          | none =>
            rw [decrement_previous_prevpart_nopart _ _ _ _ hcur hA
              (Or.inl rfl) hlp] at hok
            simp only [except_bind_ok] at hok
            rw [if_neg (by simp [hA])] at hok
            try simp only [except_pure_eq, except_bind_ok] at hok
            rw [if_neg (by simp)] at hok
            rw [increment_current_product _ _ p rfl hsec, if_neg hcnc] at hok
            simp only [except_bind_ok, Except.ok.injEq] at hok
            subst hok
            simp only [rollback_inventory]
            rw [if_neg (by simp), if_neg (by simp),
              if_neg (apply_label_chain_ne_dep st.job _ _ hlabel), if_neg (by simp)]
            simp only [Option.isNone_some, Bool.false_eq_true, ite_false]
            simp only [reverse_decrement_previous, if_neg hA, hlp]
            rw [if_neg (by simp [hA]),
              adjust_product_stock_some _ p lsec (-1) _ rfl (by omega) hsec]
            apply Stocks.extPoint <;> intro i <;> simp [addF] <;> split <;> simp_all
          | some pid =>
            rw [decrement_previous_cut_part _ _ _ pid hcur hA hlp] at hok
            by_cases hlt : st.stocks.stock_cut pid < 1
            · rw [if_pos hlt] at hok; simp at hok
            · rw [if_neg hlt] at hok
              simp only [except_bind_ok] at hok
              rw [if_neg (by simp [hA])] at hok
              try simp only [except_pure_eq, except_bind_ok] at hok
              rw [if_neg (by simp)] at hok
              rw [increment_current_product _ _ p rfl hsec, if_neg hcnc] at hok
              simp only [except_bind_ok, Except.ok.injEq] at hok
              subst hok
              simp only [rollback_inventory]
              rw [if_neg (by simp), if_neg (by simp),
                if_neg (apply_label_chain_ne_dep st.job _ _ hlabel),
                if_neg (by simp)]
              simp only [Option.isNone_some, Bool.false_eq_true, ite_false]
              simp only [reverse_decrement_previous, if_neg hA, hlp]
              rw [if_neg (by simp [hA]),
                adjust_product_stock_some _ p lsec (-1) _ rfl (by omega) hsec]
              apply Stocks.extPoint <;> intro i <;> simp [addF] <;>
                split <;> simp_all
        · subst hpvc
          cases hlp : lpart with
          | none =>
            rw [decrement_previous_prevpart_nopart _ _ _ _ hcur hA
              (Or.inr rfl) hlp] at hok
            simp only [except_bind_ok] at hok
            rw [if_neg (by simp [hA])] at hok
            try simp only [except_pure_eq, except_bind_ok] at hok
            rw [if_neg (by simp)] at hok
            rw [increment_current_product _ _ p rfl hsec, if_neg hcnc] at hok
            simp only [except_bind_ok, Except.ok.injEq] at hok
            subst hok
            simp only [rollback_inventory]
            rw [if_neg (by simp), if_neg (by simp),
              if_neg (apply_label_chain_ne_dep st.job _ _ hlabel), if_neg (by simp)]
            simp only [Option.isNone_some, Bool.false_eq_true, ite_false]
            simp only [reverse_decrement_previous, if_neg hA, hlp]
            rw [if_neg (by simp [hA]),
              adjust_product_stock_some _ p lsec (-1) _ rfl (by omega) hsec]
            apply Stocks.extPoint <;> intro i <;> simp [addF] <;> split <;> simp_all
          | some pid =>
            rw [decrement_previous_cnc_part _ _ _ pid hcur hA hlp] at hok
            by_cases hlt : st.stocks.stock_cnc_tools pid < 1
            · rw [if_pos hlt] at hok; simp at hok
            · rw [if_neg hlt] at hok
              simp only [except_bind_ok] at hok
              rw [if_neg (by simp [hA])] at hok
              try simp only [except_pure_eq, except_bind_ok] at hok
              rw [if_neg (by simp)] at hok
              rw [increment_current_product _ _ p rfl hsec, if_neg hcnc] at hok
              simp only [except_bind_ok, Except.ok.injEq] at hok
              subst hok
              simp only [rollback_inventory]
              rw [if_neg (by simp), if_neg (by simp),
                if_neg (apply_label_chain_ne_dep st.job _ _ hlabel),
                if_neg (by simp)]
              simp only [Option.isNone_some, Bool.false_eq_true, ite_false]
              simp only [reverse_decrement_previous, if_neg hA, hlp]
              rw [if_neg (by simp [hA]),
                adjust_product_stock_some _ p lsec (-1) _ rfl (by omega) hsec]
              apply Stocks.extPoint <;> intro i <;> simp [addF] <;>
                split <;> simp_all

/-! ## C1: apply/rollback inverse law -/

/-- C1 (corrected): for a single log applied to state `S` with `prev_section`
equal to the job's `current_section` at apply time (or none on first entry),
`rollback_inventory` restores every stock counter of `S` exactly — for the
part-only, external, deposit-normal, scrap and normal variants
unconditionally, and for the deposit-scrap variant provided the log's section
is not assembly and the previous section is a product-bucket section (or the
log has no part).  The excluded deposit-scrap cases genuinely fail, because
applying a deposit-scrap log rewrites `job_label` from deposit to scrapped,
so `rollback_inventory` later misclassifies the log as a plain scrap log. -/
theorem C1_apply_rollback_inverse (env : Env) (log : PLog) (st st' : St)
    (prev : Option SectionChoices)
    (hvariant :
      (∃ pid, log.part = some pid ∧ log.product = none) ∨
      (∃ p, log.product = some p ∧ log.hasJob = true ∧
        isProductField log.sec = true ∧ prev = st.job.current_section ∧
        (st.job.job_label = .deposit → log.is_scrap = true →
          log.is_external = false →
          log.sec ≠ .assembly ∧
            (∀ pv, st.job.current_section = some pv →
              isProductField pv = true ∨ log.part = none))))
    (hok : apply_inventory env log st = .ok st') :
    (rollback_inventory env log prev st').stocks = st.stocks := by
  rcases hvariant with ⟨pid, hpart, hprod⟩ | ⟨p, hprod, hjob, hsec, hprev, hds⟩
  · exact c1_part_case env log st st' pid prev hpart hprod hok
  · subst hprev
    by_cases hext : log.is_external = true
    · exact c1_external_case env log st st' p hprod hjob hsec hext hok
    · have hext' : log.is_external = false := by
        revert hext; cases log.is_external <;> simp
      by_cases hdep : st.job.job_label = .deposit
      · by_cases hscrap : log.is_scrap = true
        · obtain ⟨hA, hsafe⟩ := hds hdep hscrap hext'
          exact c1_deposit_scrap_case env log st st' p hprod hjob hsec hext'
            hscrap hdep hA hsafe hok
        · have hscrap' : log.is_scrap = false := by
            revert hscrap; cases log.is_scrap <;> simp
          exact c1_deposit_normal_case env log st st' p hprod hjob hsec hext'
            hscrap' hdep hok
      · by_cases hscrap : log.is_scrap = true
        · exact c1_scrap_case env log st st' p hprod hjob hsec hext' hscrap
            hdep hok
        · have hscrap' : log.is_scrap = false := by
            revert hscrap; cases log.is_scrap <;> simp
          exact c1_normal_case env log st st' p hprod hjob hsec hext' hscrap'
            hdep hok

/-- C1 counterexample to the claim as stated: a deposit-scrap log into
assembly (first entry, product BOM consumes 2 units of material 1) applies
with no stock movement, but rolling it back credits the never-consumed BOM
back into `Material.quantity` (0 becomes 2), so the original state is not
restored. -/
theorem C1_counterexample :
    apply_inventory env_mat1 log_dep_scrap st_dep_scrap = .ok st_dep_scrap1 ∧
    (rollback_inventory env_mat1 log_dep_scrap none st_dep_scrap1).stocks.quantity
        1 ≠ st_dep_scrap.stocks.quantity 1 := by
  constructor
  · rfl
  · have h2 : (rollback_inventory env_mat1 log_dep_scrap none
        st_dep_scrap1).stocks.quantity 1 = 0 + 2 := rfl
    have h0 : st_dep_scrap.stocks.quantity 1 = 0 := rfl
    rw [h2, h0]
    norm_num

/-- C1 witness: the inverse law evaluated on a concrete part-only cutting log
(produced 3, scrap 1) over the zero state. -/
theorem C1_witness :
    (rollback_inventory env_empty log_cut_w none st_cut_w1).stocks =
      st_cut_w.stocks := by
  have h : apply_inventory env_empty log_cut_w st_cut_w = .ok st_cut_w1 := by rfl
  exact C1_apply_rollback_inverse env_empty log_cut_w st_cut_w st_cut_w1 none
    (Or.inl ⟨1, rfl, rfl⟩) h

/-! ## C9: rollback frame property -/

/-- C9: rollback_inventory mutates only stock counters and never modifies the
job row — for every log variant the job state is identical before and after
rollback. -/
theorem C9_rollback_frame (env : Env) (log : PLog) (prev : Option SectionChoices)
    (st : St) : (rollback_inventory env log prev st).job = st.job := by
  unfold rollback_inventory
  cases log.part <;> cases log.product <;>
    (repeat' split) <;> (try rfl) <;>
    (simp only []; (repeat' split) <;> rfl)

/-! ## C4: rollback performs no negativity check -/

/-- C4 (corrected): rollback_inventory raises no inventory error — it is a
total function with no failure case — and reversing a first-entry normal
product movement at painting rewrites the ProductStock bucket to its old
value minus one for every starting value, including 0: the negative value is
committed silently instead of aborting. -/
theorem C4_rollback_no_check (env : Env) (p : Nat) (st : St)
    (hlabel : st.job.job_label ≠ .deposit) :
    (rollback_inventory env (log_normal_painting p) none st).stocks.bucket
      (p, .painting) = st.stocks.bucket (p, .painting) - 1 := by
  simp only [rollback_inventory, log_normal_painting]
  rw [if_neg (by simp), if_neg (by simp), if_neg hlabel, if_neg (by simp)]
  simp only [Option.isNone_none, ite_true]
  rw [if_neg (by simp)]
  simp [adjust_product_stock, addF, isProductField]
  omega

/-- C4 counterexample to the claim as stated: rolling back a normal painting
log over the zero state silently commits a negative bucket value (-1), and no
error is raised (rollback_inventory has no error case at all). -/
theorem C4_counterexample :
    (rollback_inventory env_empty (log_normal_painting 1) none
      st_cut_w).stocks.bucket (1, .painting) = -1 := by decide

/-- C4 witness: the amended statement evaluated at a concrete zero-stock
state. -/
theorem C4_witness :
    (rollback_inventory env_empty (log_normal_painting 1) none
      st_cut_w).stocks.bucket (1, .painting) =
      st_cut_w.stocks.bucket (1, .painting) - 1 :=
  C4_rollback_no_check env_empty 1 st_cut_w (by decide)

/-! ## C2: the rebuild_stocks action is not idempotent -/

/-- C2 (code bug): the rebuild_stocks maintenance action zeroes part stocks
and six of the seven ProductStock columns but neither `stock_workpage` nor
`Material.quantity`; replaying the log history then consumes the assembly BOM
a second time.  Concretely, a history of one normal assembly log that left 5
units of material 1 on hand is "rebuilt" into a state with 4 units. -/
theorem C2_rebuild_not_idempotent :
    apply_all env_mat_one [log_asm_normal] st_c2 = .ok st_c2_pre ∧
    rebuild_stocks env_mat_one [log_asm_normal] st_c2_pre = .ok st_c2_post ∧
    st_c2_pre.stocks.quantity 1 = 5 ∧ st_c2_post.stocks.quantity 1 = 4 := by
  refine ⟨?_, ?_, rfl, rfl⟩
  · have h1 : apply_all env_mat_one [log_asm_normal] st_c2 =
        .ok { stocks := (st_c2.stocks.addQty 1 (-1)).addBucket
                (1, SectionChoices.assembly) 1
              job := st_c2_pre.job } := rfl
    rw [h1]
    refine congrArg Except.ok (congrArg (fun s => St.mk s st_c2_pre.job) ?_)
    apply Stocks.extPoint <;> intro i <;>
      simp only [addBucket_cut, addBucket_cnc, addBucket_qty, addBucket_bucket,
        addQty_cut, addQty_cnc, addQty_qty, addQty_bucket]
    · rfl
    · rfl
    · by_cases hi : i = 1 <;> simp [addF, hi, st_c2, st_c2_pre, s_zero] <;>
        norm_num
    · by_cases hi : i = (1, SectionChoices.assembly) <;>
        simp [addF, hi, st_c2, st_c2_pre, s_zero]
  · have h2 : rebuild_stocks env_mat_one [log_asm_normal] st_c2_pre =
        .ok { stocks := ((zero_for_rebuild st_c2_pre.stocks).addQty 1
                (-1)).addBucket (1, SectionChoices.assembly) 1
              job := st_c2_pre.job } := rfl
    rw [h2]
    refine congrArg Except.ok (congrArg (fun s => St.mk s st_c2_pre.job) ?_)
    apply Stocks.extPoint <;> intro i <;>
      simp only [addBucket_cut, addBucket_cnc, addBucket_qty, addBucket_bucket,
        addQty_cut, addQty_cnc, addQty_qty, addQty_bucket]
    · rfl
    · rfl
    · by_cases hi : i = 1 <;>
        simp [addF, hi, zero_for_rebuild, st_c2_pre, st_c2_post] <;> norm_num
    · by_cases hi : i = (1, SectionChoices.assembly) <;>
        simp [addF, hi, zero_for_rebuild, st_c2_pre, st_c2_post]

/-! ## C3: get_process_flow -/

/-- C3 (corrected): get_process_flow never reads `allowed_sections`.  A
part-only job gets `[cutting, cnc_tools]`; a job with neither part nor
product gets `[]`; a product job returns the product model's non-empty
`process_flow` when present, and otherwise derives from the dynamic
`components` attribute: an MDF/page component name yields the
workpage flow (no sewing/upholstery), anything else the no-workpage flow. -/
theorem C3_process_flow (fenv : FlowEnv) :
    (∀ pid : Nat, get_process_flow fenv (some pid) none =
      [.cutting, .cnc_tools]) ∧
    (get_process_flow fenv none none = []) ∧
    (∀ q pf part, (fenv.products q).process_flow = some pf → pf ≠ [] →
      get_process_flow fenv part (some q) = pf) ∧
    (∀ q part, (fenv.products q).process_flow = none →
      get_process_flow fenv part (some q) =
        (if components_include_workpage (fenv.products q) then
          flow_with_workpage
        else flow_without_workpage)) := by
  refine ⟨fun pid => rfl, rfl, ?_, ?_⟩
  · intro q pf part hpf hne
    cases part <;>
      simp [get_process_flow, hpf, List.isEmpty_iff, hne]
  · intro q part hpf
    cases part <;> cases h : components_include_workpage (fenv.products q) <;>
      simp [get_process_flow, hpf, h]

/-- C3 counterexample to the claim as stated: for a product job over a
database product (no process_flow attribute, no dynamic components),
get_process_flow returns the fixed no-workpage flow whatever the job's
allowed_sections say — in particular it is not `[painting]` for a job whose
allowed_sections is `[painting]`. -/
theorem C3_counterexample :
    get_process_flow fenv_plain none (some 1) = flow_without_workpage ∧
    flow_without_workpage ≠ [SectionChoices.painting] := by
  exact ⟨rfl, by decide⟩

/-- C3 witness: the derived-flow clause evaluated on the plain product
table. -/
theorem C3_witness :
    get_process_flow fenv_plain none (some 1) =
      (if components_include_workpage (fenv_plain.products 1) then
        flow_with_workpage
      else flow_without_workpage) :=
  (C3_process_flow fenv_plain).2.2.2 1 none rfl

/-! ## C10: job-creation label side effects -/

/-- C10 (corrected): on creation of a product job the post_save signal
mutates ProductStock by label: 'deposit' with exactly one allowed
product-bucket section credits it and forces status in_progress with
finished_at set; 'scrapped' with non-empty allowed sections debits the
second-to-last (or only) allowed bucket unconditionally (so it can go
negative); 'completed' credits packaging and debits the last allowed bucket
only when that bucket exists and is not packaging itself. -/
theorem C10_label_side_effects :
    (∀ (p : Nat) (a : SectionChoices) (cur : Option SectionChoices)
        (status0 : JobTag) (fin0 : Bool) (s : Stocks), isProductField a = true →
      apply_label_side_effects .deposit [a] cur (some p) status0 fin0 s =
        (s.addBucket (p, a) 1, .in_progress, true)) ∧
    (∀ (p : Nat) (allowed : List SectionChoices) (cur : Option SectionChoices)
        (status0 : JobTag) (fin0 : Bool) (s : Stocks) (pv : SectionChoices),
      allowed ≠ [] → scrapped_prev allowed = some pv →
      isProductField pv = true →
      apply_label_side_effects .scrapped allowed cur (some p) status0 fin0 s =
        (s.addBucket (p, pv) (-1), .scrapped, true)) ∧
    (∀ (p : Nat) (allowed : List SectionChoices) (cur : Option SectionChoices)
        (status0 : JobTag) (fin0 : Bool) (s : Stocks) (pv : SectionChoices),
      allowed.getLast? = some pv → isProductField pv = true →
      pv ≠ .packaging →
      apply_label_side_effects .completed allowed cur (some p) status0 fin0 s =
        ((s.addBucket (p, .packaging) 1).addBucket (p, pv) (-1),
          .completed, true)) ∧
    (∀ (p : Nat) (allowed : List SectionChoices) (cur : Option SectionChoices)
        (status0 : JobTag) (fin0 : Bool) (s : Stocks),
      allowed.getLast? = some .packaging →
      apply_label_side_effects .completed allowed cur (some p) status0 fin0 s =
        (s.addBucket (p, .packaging) 1, .completed, true)) := by
  refine ⟨?_, ?_, ?_, ?_⟩
  · intro p a cur status0 fin0 s hf
    simp [apply_label_side_effects, hf]
  · intro p allowed cur status0 fin0 s pv hne hprev hf
    simp [apply_label_side_effects, List.isEmpty_iff, hne, hprev, hf]
  · intro p allowed cur status0 fin0 s pv hlast hf hnp
    simp [apply_label_side_effects, hlast, hf, hnp]
  · intro p allowed cur status0 fin0 s hlast
    simp [apply_label_side_effects, hlast]

/-- C10 counterexample to the claim as stated: creating a 'completed' product
job whose allowed_sections is `[packaging]` credits stock_packaging by 1 and
performs no debit (the claim's unconditional "debits the last allowed
section's bucket" would leave the bucket at 0). -/
theorem C10_counterexample :
    (apply_label_side_effects .completed [.packaging] none (some 1) .completed
      false s_zero).1.bucket (1, .packaging) = 1 ∧ (1 : Int) ≠ 0 := by
  exact ⟨by decide, by decide⟩

/-- C10 witness: the deposit clause evaluated concretely. -/
theorem C10_witness :
    apply_label_side_effects .deposit [.painting] none (some 1) .deposit false
      s_zero = (s_zero.addBucket (1, .painting) 1, .in_progress, true) :=
  C10_label_side_effects.1 1 .painting none .deposit false s_zero (by decide)

/-! ## C8: at most one log per (job, section) -/

/-- C8: a second submission of an existing (job, section) pair is rejected
with the duplicate-section error before any inventory mutation, and every
accepted submission preserves the `production_log_unique_job_section`
invariant that at most one stored log row exists per (job, section) pair. -/
theorem C8_unique_job_section (env : Env) (jobId : Nat) (log : PLog) (db : LogDB)
    (st : St) (hinv : at_most_one_per_job_section db) :
    (log.hasJob = true → has_job_section db jobId log.sec = true →
      work_entry_submit env jobId log db st = .error .duplicate_section) ∧
    (∀ db' st', work_entry_submit env jobId log db st = .ok (db', st') →
      at_most_one_per_job_section db') := by
  constructor
  · intro h1 h2
    unfold work_entry_submit
    rw [if_pos ⟨h1, h2⟩]
  · intro db' st' hok
    unfold work_entry_submit at hok
    by_cases hdup : log.hasJob = true ∧ has_job_section db jobId log.sec = true
    · rw [if_pos hdup] at hok
      exact absurd hok (by simp)
    · rw [if_neg hdup] at hok
      cases happ : apply_inventory env log st with
      | error e => rw [happ] at hok; exact absurd hok (by simp)
      | ok st1 =>
        rw [happ] at hok
        simp only [Except.ok.injEq, Prod.mk.injEq] at hok
        obtain ⟨hdb, hst⟩ := hok
        subst hdb
        by_cases hj : log.hasJob = true
        · rw [if_pos hj]
          have hhs : has_job_section db jobId log.sec = false := by
            cases hcontains : has_job_section db jobId log.sec
            · rfl
            · exact absurd ⟨hj, hcontains⟩ hdup
          have hnomem : ∀ r ∈ db.rows, ¬(r.1 = jobId ∧ r.2 = log.sec) := by
            intro r hr hmatch
            have : db.rows.any (fun r => decide (r.1 = jobId ∧ r.2 = log.sec)) =
                true := by
              rw [List.any_eq_true]
              exact ⟨r, hr, by simp [hmatch.1, hmatch.2]⟩
            rw [show (db.rows.any fun r =>
              decide (r.1 = jobId ∧ r.2 = log.sec)) =
                has_job_section db jobId log.sec from rfl, hhs] at this
            exact absurd this (by simp)
          intro j sv
          rw [List.filter_cons]
          by_cases hm : jobId = j ∧ log.sec = sv
          · obtain ⟨hm1, hm2⟩ := hm
            subst hm1; subst hm2
            rw [if_pos (by simp)]
            have hnil : db.rows.filter
                (fun r => decide (r.1 = jobId ∧ r.2 = log.sec)) = [] := by
              rw [List.filter_eq_nil_iff]
              intro r hr
              simpa using hnomem r hr
            rw [hnil]
            simp
          · rw [if_neg (by simpa using fun h1 h2 => hm ⟨h1, h2⟩)]
            exact hinv j sv
        · rw [if_neg hj]
          exact hinv

/-- C8 witness: on an empty table a painting submission for job 1 is accepted
and the resulting table, which holds exactly one (1, painting) row, satisfies
the uniqueness invariant. -/
theorem C8_witness :
    at_most_one_per_job_section (LogDB.mk [(1, SectionChoices.painting)]) :=
  (C8_unique_job_section env_empty 1 (log_normal_painting 1) (LogDB.mk [])
      st_cut_w (by intro j sv; simp)).2
    (LogDB.mk [(1, SectionChoices.painting)]) st_pw1 rfl

/-! ## C6: the unified completion rule -/

theorem except_ok_exists {ε α β : Type} {x : Except ε α} {f : α → Except ε β}
    {b : β} (h : (x >>= f) = .ok b) : ∃ a, x = .ok a ∧ f a = .ok b := by
  cases x with
  | error e => rw [except_bind_error] at h; exact absurd h (by simp)
  | ok a => rw [except_bind_ok] at h; exact ⟨a, rfl, h⟩

theorem c6_job_external (env : Env) (log : PLog) (st st' : St) (p : Nat)
    (hprod : log.product = some p) (hjob : log.hasJob = true)
    (hext : log.is_external = true)
    (hok : apply_inventory env log st = .ok st') :
    st'.job = (if should_close st.job.allowed_sections log.sec then
        close_job { st.job with
          current_section := some log.sec
          is_external_entry := true }
      else { st.job with
          current_section := some log.sec
          is_external_entry := true }) := by
  obtain ⟨lpart, lprod, lhas, lpq, lsq, lsec, lscrap, lext⟩ := log
  simp only at hjob hext hprod
  subst hjob hext hprod
  cases lpart <;>
  · simp only [apply_inventory] at hok
    rw [if_neg (by simp), if_pos (by trivial)] at hok
    obtain ⟨s1, h1, h2⟩ := except_ok_exists hok
    simp only [Except.ok.injEq] at h2
    subst h2
    rfl

theorem c6_job_deposit_normal (env : Env) (log : PLog) (st st' : St) (p : Nat)
    (hprod : log.product = some p) (hjob : log.hasJob = true)
    (hscrap : log.is_scrap = false) (hext : log.is_external = false)
    (hlabel : st.job.job_label = .deposit)
    (hok : apply_inventory env log st = .ok st') :
    st'.job = promote_label_sync
      { (if should_close st.job.allowed_sections log.sec then close_job st.job
         else st.job) with
        current_section := some log.sec, is_external_entry := false } := by
  obtain ⟨lpart, lprod, lhas, lpq, lsq, lsec, lscrap, lext⟩ := log
  simp only at hjob hext hprod hscrap
  subst hjob hext hprod hscrap
  cases lpart <;>
  · simp only [apply_inventory] at hok
    rw [if_neg (by simp), if_neg (by simp), if_pos hlabel, if_neg (by simp)] at hok
    cases hcur : st.job.current_section with
    | none =>
      rw [hcur] at hok
      simp only [Option.isNone_none, ite_true, except_pure_eq,
        except_bind_ok] at hok
      obtain ⟨s2, h3, h4⟩ := except_ok_exists hok
      simp only [Except.ok.injEq] at h4
      subst h4
      rfl
    | some pv =>
      rw [hcur] at hok
      simp only [Option.isNone_some, Bool.false_eq_true, ite_false] at hok
      obtain ⟨s1, h1, h2⟩ := except_ok_exists hok
      try simp only [] at h2
      obtain ⟨s2, h3, h4⟩ := except_ok_exists h2
      simp only [Except.ok.injEq] at h4
      subst h4
      rfl

theorem c6_job_normal (env : Env) (log : PLog) (st st' : St) (p : Nat)
    (hprod : log.product = some p) (hjob : log.hasJob = true)
    (hscrap : log.is_scrap = false) (hext : log.is_external = false)
    (hlabel : st.job.job_label ≠ .deposit)
    (hok : apply_inventory env log st = .ok st') :
    st'.job = promote_label_sync
      { (if should_close st.job.allowed_sections log.sec then close_job st.job
         else st.job) with
        current_section := some log.sec, is_external_entry := false } := by
  obtain ⟨lpart, lprod, lhas, lpq, lsq, lsec, lscrap, lext⟩ := log
  simp only at hjob hext hprod hscrap
  subst hjob hext hprod hscrap
  cases lpart <;>
  · simp only [apply_inventory] at hok
    rw [if_neg (by simp), if_neg (by simp), if_neg hlabel, if_neg (by simp)] at hok
    cases hcur : st.job.current_section with
    | none =>
      rw [hcur] at hok
      simp only [Option.isNone_none, ite_true, except_pure_eq,
        except_bind_ok] at hok
      by_cases hA : lsec = SectionChoices.assembly
      · subst hA
        rw [if_pos (by simp)] at hok
        obtain ⟨sa, hc, h2⟩ := except_ok_exists hok
        try simp only [] at h2
        obtain ⟨v, hm, h3⟩ := except_ok_exists h2
        try simp only [] at h3
        rw [if_neg (by simp)] at h3
        obtain ⟨s3, hi, h4⟩ := except_ok_exists h3
        simp only [Except.ok.injEq] at h4
        subst h4
        first | rfl | simp
      · rw [if_neg (by simp [hA])] at hok
        try simp only [except_pure_eq, except_bind_ok] at hok
        rw [if_neg (by simp)] at hok
        obtain ⟨s3, hi, h4⟩ := except_ok_exists hok
        simp only [Except.ok.injEq] at h4
        subst h4
        first | rfl | simp
    | some pv =>
      rw [hcur] at hok
      simp only [Option.isNone_some, Bool.false_eq_true, ite_false] at hok
      obtain ⟨s1, hd, h2⟩ := except_ok_exists hok
      try simp only [] at h2
      by_cases hA : lsec = SectionChoices.assembly
      · subst hA
        rw [if_pos (by simp)] at h2
        obtain ⟨sa, hc, h3⟩ := except_ok_exists h2
        try simp only [] at h3
        obtain ⟨v, hm, h4⟩ := except_ok_exists h3
        try simp only [] at h4
        rw [if_neg (by simp)] at h4
        obtain ⟨s3, hi, h5⟩ := except_ok_exists h4
        simp only [Except.ok.injEq] at h5
        subst h5
        first | rfl | simp
      · rw [if_neg (by simp [hA])] at h2
        try simp only [except_pure_eq, except_bind_ok] at h2
        rw [if_neg (by simp)] at h2
        obtain ⟨s3, hi, h3⟩ := except_ok_exists h2
        simp only [Except.ok.injEq] at h3
        subst h3
        first | rfl | simp

/-- C6: a product movement through the external, deposit-normal or normal
branch of `apply_inventory` closes the job exactly when `should_close` holds —
its section is the last allowed section in canonical order, or is packaging
unconditionally.  On closure the status becomes completed (repaired when it
was warranty), `finished_at` is stamped, and the label is promoted only from
in-progress to completed; without closure status and finished stay unchanged
and the label changes only through the same in-progress-to-completed
promotion.  `current_section` always becomes the log's section. -/
theorem C6_completion_rule (env : Env) (log : PLog) (st st' : St) (p : Nat)
    (hprod : log.product = some p) (hjob : log.hasJob = true)
    (hvariant : log.is_external = true ∨
      (log.is_external = false ∧ log.is_scrap = false ∧
        st.job.job_label = .deposit) ∨
      (log.is_external = false ∧ log.is_scrap = false ∧
        st.job.job_label ≠ .deposit))
    (hok : apply_inventory env log st = .ok st') :
    (should_close st.job.allowed_sections log.sec = true →
      st'.job.status =
        (if st.job.status = .warranty then .repaired else .completed) ∧
      st'.job.finished = true ∧
      st'.job.job_label =
        (if st.job.job_label = .in_progress ∧ st.job.status ≠ .warranty then
          .completed
        else st.job.job_label)) ∧
    (should_close st.job.allowed_sections log.sec = false →
      st'.job.status = st.job.status ∧
      st'.job.finished = st.job.finished ∧
      (st'.job.job_label = st.job.job_label ∨
        (st.job.job_label = .in_progress ∧ st.job.status = .completed ∧
          st'.job.job_label = .completed))) ∧
    st'.job.current_section = some log.sec := by
  have hj : st'.job = (if should_close st.job.allowed_sections log.sec then
        close_job { st.job with
          current_section := some log.sec
          is_external_entry := true }
      else { st.job with
          current_section := some log.sec
          is_external_entry := true }) ∨
      st'.job = promote_label_sync
        { (if should_close st.job.allowed_sections log.sec then
            close_job st.job
          else st.job) with
          current_section := some log.sec, is_external_entry := false } := by
    rcases hvariant with hext | ⟨hext, hscrap, hlabel⟩ | ⟨hext, hscrap, hlabel⟩
    · exact Or.inl (c6_job_external env log st st' p hprod hjob hext hok)
    · exact Or.inr (c6_job_deposit_normal env log st st' p hprod hjob hscrap
        hext hlabel hok)
    · exact Or.inr (c6_job_normal env log st st' p hprod hjob hscrap hext
        hlabel hok)
  rcases hj with hj | hj
  · refine ⟨fun hc => ?_, fun hc => ?_, ?_⟩
    · rw [hj, if_pos hc]
      by_cases h1 : st.job.status = .warranty <;>
        by_cases h2 : st.job.job_label = .in_progress <;>
        simp [close_job, h1, h2]
    · rw [hj, if_neg (by simp [hc])]
      exact ⟨rfl, rfl, Or.inl rfl⟩
    · rw [hj]
      by_cases hc : should_close st.job.allowed_sections log.sec = true
      · rw [if_pos hc]
        by_cases h1 : st.job.status = .warranty <;>
          by_cases h2 : st.job.job_label = .in_progress <;>
          simp [close_job, h1, h2]
      · rw [if_neg hc]
  · refine ⟨fun hc => ?_, fun hc => ?_, ?_⟩
    · rw [hj, if_pos hc]
      by_cases h1 : st.job.status = .warranty <;>
        by_cases h2 : st.job.job_label = .in_progress <;>
        simp [close_job, promote_label_sync, h1, h2]
    · rw [hj, if_neg (by simp [hc])]
      by_cases h3 : st.job.status = .completed <;>
        by_cases h2 : st.job.job_label = .in_progress <;>
        simp [promote_label_sync, h3, h2]
    · rw [hj]
      by_cases hc : should_close st.job.allowed_sections log.sec = true
      · rw [if_pos hc]
        by_cases h1 : st.job.status = .warranty <;>
          by_cases h2 : st.job.job_label = .in_progress <;>
          simp [close_job, promote_label_sync, h1, h2]
      · rw [if_neg hc]
        by_cases h3 : st.job.status = .completed <;>
          by_cases h2 : st.job.job_label = .in_progress <;>
          simp [promote_label_sync, h3, h2]

/-- C6 witness: an external packaging movement on a fresh zero-stock job
closes it — status completed, finished stamped, label promoted, current
section packaging. -/
theorem C6_witness :
    st_ext1.job.finished = true ∧
    st_ext1.job.current_section = some SectionChoices.packaging :=
  ⟨((C6_completion_rule env_empty log_ext_pack st_cut_w st_ext1 1 rfl rfl
      (Or.inl rfl) rfl).1 (by decide)).2.1,
   (C6_completion_rule env_empty log_ext_pack st_cut_w st_ext1 1 rfl rfl
      (Or.inl rfl) rfl).2.2⟩

/-! ## C5: non-negativity is preserved by every successful apply -/

theorem nonneg_addCut {s : Stocks} {p : Nat} {d : Int} (h : Nonneg s)
    (hd : 0 ≤ s.stock_cut p + d) : Nonneg (s.addCut p d) := by
  obtain ⟨h1, h2, h3, h4⟩ := h
  refine ⟨fun i => ?_, h2, h3, h4⟩
  simp only [addCut_cut, addF]
  split
  · next hi => rw [hi]; exact hd
  · exact h1 i

theorem nonneg_addCnc {s : Stocks} {p : Nat} {d : Int} (h : Nonneg s)
    (hd : 0 ≤ s.stock_cnc_tools p + d) : Nonneg (s.addCnc p d) := by
  obtain ⟨h1, h2, h3, h4⟩ := h
  refine ⟨h1, fun i => ?_, h3, h4⟩
  simp only [addCnc_cnc, addF]
  split
  · next hi => rw [hi]; exact hd
  · exact h2 i

theorem nonneg_addQty {s : Stocks} {m : Nat} {d : Rat} (h : Nonneg s)
    (hd : 0 ≤ s.quantity m + d) : Nonneg (s.addQty m d) := by
  obtain ⟨h1, h2, h3, h4⟩ := h
  refine ⟨h1, h2, fun i => ?_, h4⟩
  simp only [addQty_qty, addF]
  split
  · next hi => rw [hi]; exact hd
  · exact h3 i

theorem nonneg_addBucket {s : Stocks} {k : Nat × SectionChoices} {d : Int}
    (h : Nonneg s) (hd : 0 ≤ s.bucket k + d) : Nonneg (s.addBucket k d) := by
  obtain ⟨h1, h2, h3, h4⟩ := h
  refine ⟨h1, h2, h3, fun i => ?_⟩
  simp only [addBucket_bucket, addF]
  split
  · next hi => rw [hi]; exact hd
  · exact h4 i

theorem nonneg_addCnc_pos {s : Stocks} {p : Nat} {d : Int} (h : Nonneg s)
    (hd : 0 ≤ d) : Nonneg (s.addCnc p d) :=
  nonneg_addCnc h (by have hb := h.2.1 p; omega)

theorem nonneg_addBucket_pos {s : Stocks} {k : Nat × SectionChoices} {d : Int}
    (h : Nonneg s) (hd : 0 ≤ d) : Nonneg (s.addBucket k d) :=
  nonneg_addBucket h (by have hb := h.2.2.2 k; omega)

theorem nonneg_increment_current (log : PLog) (s t : Stocks) (h : Nonneg s)
    (hok : increment_current log s = .ok t) : Nonneg t := by
  unfold increment_current at hok
  try simp only [] at hok
  repeat' split at hok
  all_goals first
    | exact Except.noConfusion hok
    | (simp only [Except.ok.injEq] at hok
       subst hok
       first
       | exact h
       | (refine nonneg_addCut h ?_; omega)
       | (refine nonneg_addCnc_pos h ?_; omega)
       | (refine nonneg_addBucket_pos h ?_; omega))

theorem nonneg_decrement_previous (log : PLog) (job : JobState) (hasJob : Bool)
    (s t : Stocks) (h : Nonneg s)
    (hok : decrement_previous log job hasJob s = .ok t) : Nonneg t := by
  unfold decrement_previous at hok
  repeat' split at hok
  all_goals first
    | exact Except.noConfusion hok
    | (simp only [Except.ok.injEq] at hok
       subst hok
       first
       | exact h
       | (refine nonneg_addCut h ?_; omega)
       | (refine nonneg_addCnc h ?_; omega)
       | (refine nonneg_addBucket h ?_; omega))

theorem nonneg_dec_prev_product_bucket (log : PLog) (job : JobState)
    (s t : Stocks) (h : Nonneg s)
    (hok : dec_prev_product_bucket log job s = .ok t) : Nonneg t := by
  unfold dec_prev_product_bucket at hok
  repeat' split at hok
  all_goals first
    | exact Except.noConfusion hok
    | (simp only [Except.ok.injEq] at hok
       subst hok
       first
       | exact h
       | (refine nonneg_addBucket h ?_; omega))

theorem nonneg_consume_components (cs : List Component) (s t : Stocks)
    (h : Nonneg s) (hok : consume_components cs s = .ok t) : Nonneg t := by
  refine foldlM_ok_preserve Nonneg _ ?_ cs s t h hok
  intro s a t hP hf
  repeat' split at hf
  all_goals first
    | exact Except.noConfusion hf
    | (simp only [Except.ok.injEq] at hf
       subst hf
       first
       | exact hP
       | (refine nonneg_addCnc hP ?_; omega))

theorem nonneg_consume_materials (ms : List MaterialReq) (s t : Stocks)
    (h : Nonneg s) (hok : consume_materials ms s = .ok t) : Nonneg t := by
  refine foldlM_ok_preserve Nonneg _ ?_ ms s t h hok
  intro s a t hP hf
  split at hf
  · exact Except.noConfusion hf
  · next hguard =>
    simp only [Except.ok.injEq] at hf
    subst hf
    refine nonneg_addQty hP ?_
    have := le_of_not_lt hguard
    linarith

theorem apply_inventory_nonneg (env : Env) (log : PLog) (st st' : St)
    (h0 : Nonneg st.stocks) (hok : apply_inventory env log st = .ok st') :
    Nonneg st'.stocks := by
  obtain ⟨lpart, lprod, lhas, lpq, lsq, lsec, lscrap, lext⟩ := log
  cases lpart <;> cases lprod <;> simp only [apply_inventory] at hok
  case some.none pid =>
    try simp only [] at hok
    split at hok
    · split at hok
      · exact Except.noConfusion hok
      · simp only [Except.ok.injEq] at hok
        subst hok
        exact nonneg_addCut h0 (by omega)
    · split at hok
      · split at hok
        · exact Except.noConfusion hok
        · simp only [Except.ok.injEq] at hok
          subst hok
          refine nonneg_addCut (nonneg_addCnc h0 ?_) ?_
          · have hb := h0.2.1 pid
            omega
          · simp only [addCnc_cut]
            omega
      · simp only [Except.ok.injEq] at hok
        subst hok
        exact h0
  all_goals
    cases lhas with
    | false =>
      rw [if_pos (by simp)] at hok
      simp only [Except.ok.injEq] at hok
      subst hok
      exact h0
    | true =>
      rw [if_neg (by simp)] at hok
      cases lext with
      | true =>
        rw [if_pos (by trivial)] at hok
        obtain ⟨s1, h1, h2⟩ := except_ok_exists hok
        try simp only [] at h2
        simp only [Except.ok.injEq] at h2
        subst h2
        exact nonneg_increment_current _ _ _ h0 h1
      | false =>
        rw [if_neg (by simp)] at hok
        by_cases hdep : st.job.job_label = .deposit
        · rw [if_pos hdep] at hok
          cases lscrap with
          | true =>
            rw [if_pos (by trivial)] at hok
            cases hcur : st.job.current_section with
            | none =>
              rw [hcur] at hok
              simp only [Option.isNone_none, ite_true, except_pure_eq,
                except_bind_ok] at hok
              simp only [Except.ok.injEq] at hok
              subst hok
              exact h0
            | some pv =>
              rw [hcur] at hok
              simp only [Option.isNone_some, Bool.false_eq_true,
                ite_false] at hok
              obtain ⟨s1, h1, h2⟩ := except_ok_exists hok
              try simp only [] at h2
              simp only [Except.ok.injEq] at h2
              subst h2
              exact nonneg_dec_prev_product_bucket _ _ _ _ h0 h1
          | false =>
            rw [if_neg (by simp)] at hok
            cases hcur : st.job.current_section with
            | none =>
              rw [hcur] at hok
              simp only [Option.isNone_none, ite_true, except_pure_eq,
                except_bind_ok] at hok
              obtain ⟨s2, h3, h4⟩ := except_ok_exists hok
              try simp only [] at h4
              simp only [Except.ok.injEq] at h4
              subst h4
              exact nonneg_increment_current _ _ _ h0 h3
            | some pv =>
              rw [hcur] at hok
              simp only [Option.isNone_some, Bool.false_eq_true,
                ite_false] at hok
              obtain ⟨s1, h1, h2⟩ := except_ok_exists hok
              try simp only [] at h2
              obtain ⟨s2, h3, h4⟩ := except_ok_exists h2
              try simp only [] at h4
              simp only [Except.ok.injEq] at h4
              subst h4
              exact nonneg_increment_current _ _ _
                (nonneg_dec_prev_product_bucket _ _ _ _ h0 h1) h3
        · rw [if_neg hdep] at hok
          cases lscrap with
          | true =>
            rw [if_pos (by trivial)] at hok
            by_cases hA : lsec = SectionChoices.assembly
            · rw [if_pos hA] at hok
              obtain ⟨sa, hc, h2⟩ := except_ok_exists hok
              try simp only [] at h2
              obtain ⟨s1, hm, h3⟩ := except_ok_exists h2
              try simp only [] at h3
              simp only [Except.ok.injEq] at h3
              subst h3
              exact nonneg_consume_materials _ _ _
                (nonneg_consume_components _ _ _ h0 hc) hm
            · rw [if_neg hA] at hok
              obtain ⟨s1, h1, h2⟩ := except_ok_exists hok
              try simp only [] at h2
              simp only [Except.ok.injEq] at h2
              subst h2
              exact nonneg_decrement_previous _ _ _ _ _ h0 h1
          | false =>
            rw [if_neg (by simp)] at hok
            cases hcur : st.job.current_section with
            | none =>
              rw [hcur] at hok
              simp only [Option.isNone_none, ite_true, except_pure_eq,
                except_bind_ok] at hok
              have hprev := h0
              split at hok
              · obtain ⟨sa, hc, h2⟩ := except_ok_exists hok
                try simp only [] at h2
                obtain ⟨v, hm, h3⟩ := except_ok_exists h2
                try simp only [] at h3
                rw [if_neg (by simp)] at h3
                obtain ⟨s3, hi, h4⟩ := except_ok_exists h3
                try simp only [] at h4
                simp only [Except.ok.injEq] at h4
                subst h4
                exact nonneg_increment_current _ _ _
                  (nonneg_consume_materials _ _ _
                    (nonneg_consume_components _ _ _ hprev hc) hm) hi
              · try simp only [except_pure_eq, except_bind_ok] at hok
                rw [if_neg (by simp)] at hok
                obtain ⟨s3, hi, h4⟩ := except_ok_exists hok
                try simp only [] at h4
                simp only [Except.ok.injEq] at h4
                subst h4
                exact nonneg_increment_current _ _ _ hprev hi
            | some pv =>
              rw [hcur] at hok
              simp only [Option.isNone_some, Bool.false_eq_true,
                ite_false] at hok
              obtain ⟨s1, h1, h2⟩ := except_ok_exists hok
              try simp only [] at h2
              have hprev := nonneg_decrement_previous _ _ _ _ _ h0 h1
              split at h2
              · obtain ⟨sa, hc, h3⟩ := except_ok_exists h2
                try simp only [] at h3
                obtain ⟨v, hm, h4⟩ := except_ok_exists h3
                try simp only [] at h4
                rw [if_neg (by simp)] at h4
                obtain ⟨s3, hi, h5⟩ := except_ok_exists h4
                try simp only [] at h5
                simp only [Except.ok.injEq] at h5
                subst h5
                exact nonneg_increment_current _ _ _
                  (nonneg_consume_materials _ _ _
                    (nonneg_consume_components _ _ _ hprev hc) hm) hi
              · try simp only [except_pure_eq, except_bind_ok] at h2
                rw [if_neg (by simp)] at h2
                obtain ⟨s3, hi, h3⟩ := except_ok_exists h2
                try simp only [] at h3
                simp only [Except.ok.injEq] at h3
                subst h3
                exact nonneg_increment_current _ _ _ hprev hi

/-- C5: starting from non-negative counters, every successful sequence of
`apply_inventory` calls keeps every Part stock, Material quantity and
ProductStock bucket non-negative: each debit in the apply path is guarded by
an insufficient-stock check that raises an inventory error instead of
committing. -/
theorem C5_nonneg_invariant (env : Env) (logs : List PLog) (st st' : St)
    (h0 : Nonneg st.stocks) (hok : apply_all env logs st = .ok st') :
    Nonneg st'.stocks :=
  foldlM_ok_preserve (fun s => Nonneg s.stocks)
    (fun s l => apply_inventory env l s)
    (fun s a t hP hf => apply_inventory_nonneg env a s t hP hf) logs st st' h0
    hok

/-- C5 witness: replaying a part-only cutting log over the zero state keeps
all counters non-negative. -/
theorem C5_witness : Nonneg st_cut_w1.stocks :=
  C5_nonneg_invariant env_empty [log_cut_w] st_cut_w st_cut_w1
    ⟨fun i => le_refl 0, fun i => le_refl 0, fun i => le_refl 0,
      fun k => le_refl 0⟩ rfl

/-! ## C7: the rewind contract -/

theorem collect_log_history_map_fst (prev : Option SectionChoices)
    (logs : List PLog) :
    (collect_log_history prev logs).map Prod.fst = logs := by
  induction logs generalizing prev with
  | nil => rfl
  | cons l rest ih => simp only [collect_log_history, List.map_cons, ih]

theorem reverse_drop_one_reverse {α : Type} (l : List α) :
    (l.reverse.drop 1).reverse = l.dropLast := by
  induction l using List.reverseRecOn with
  | nil => rfl
  | append_singleton xs x ih => simp

theorem rewind_scan_spec (env : Env) (job : JobState) :
    ∀ (ctxs : List (PLog × Option SectionChoices))
      (sset : List SectionChoices) (s : Stocks), sset.Nodup →
      ((∀ sv, sv ∉ sset →
        (rewind_scan env job ctxs sset s).2.1.filter (fun l => l.sec = sv) =
          (ctxs.map Prod.fst).filter (fun l => l.sec = sv)) ∧
      (∀ sv, sv ∈ sset →
        (rewind_scan env job ctxs sset s).2.1.filter (fun l => l.sec = sv) =
          ((ctxs.map Prod.fst).filter (fun l => l.sec = sv)).drop 1) ∧
      (rewind_scan env job ctxs sset s).1 +
        (rewind_scan env job ctxs sset s).2.1.length = ctxs.length) := by
  intro ctxs
  induction ctxs with
  | nil =>
    intro sset s hnd
    exact ⟨fun sv h => rfl, fun sv h => rfl, rfl⟩
  | cons c older ih =>
    obtain ⟨l, prev⟩ := c
    intro sset s hnd
    by_cases hemp : sset.isEmpty
    · have hsl : sset = [] := List.isEmpty_iff.mp hemp
      subst hsl
      have hscan : rewind_scan env job ((l, prev) :: older) [] s =
          (0, l :: older.map Prod.fst, s) := by
        simp only [rewind_scan]
        rw [if_pos hemp]
      refine ⟨fun sv hsv => ?_, fun sv hsv => absurd hsv (by simp), ?_⟩
      · rw [hscan]
        rfl
      · rw [hscan]
        simp
    · by_cases hcont : sset.contains l.sec
      · have hmem : l.sec ∈ sset := by simpa using hcont
        have hscan : rewind_scan env job ((l, prev) :: older) sset s =
            ((rewind_scan env job older (sset.erase l.sec)
                ((rollback_inventory env l prev
                  { stocks := s, job := job }).stocks)).1 + 1,
             (rewind_scan env job older (sset.erase l.sec)
                ((rollback_inventory env l prev
                  { stocks := s, job := job }).stocks)).2.1,
             (rewind_scan env job older (sset.erase l.sec)
                ((rollback_inventory env l prev
                  { stocks := s, job := job }).stocks)).2.2) := by
          simp only [rewind_scan]
          rw [if_neg hemp, if_pos hcont]
        have h1 : (rewind_scan env job ((l, prev) :: older) sset s).1 =
            (rewind_scan env job older (sset.erase l.sec)
              ((rollback_inventory env l prev
                { stocks := s, job := job }).stocks)).1 + 1 := by rw [hscan]
        have h2 : (rewind_scan env job ((l, prev) :: older) sset s).2.1 =
            (rewind_scan env job older (sset.erase l.sec)
              ((rollback_inventory env l prev
                { stocks := s, job := job }).stocks)).2.1 := by rw [hscan]
        obtain ⟨iha, ihb, ihc⟩ := ih (sset.erase l.sec)
          ((rollback_inventory env l prev { stocks := s, job := job }).stocks)
          (hnd.erase l.sec)
        refine ⟨fun sv hsv => ?_, fun sv hsv => ?_, ?_⟩
        · have hne : l.sec ≠ sv := fun h => hsv (h ▸ hmem)
          rw [h2, iha sv (fun h => hsv (List.mem_of_mem_erase h))]
          dsimp only [List.map_cons]
          rw [List.filter_cons,
            if_neg (by simp only [decide_eq_true_eq]; exact hne)]
        · by_cases hsveq : sv = l.sec
          · subst hsveq
            rw [h2, iha l.sec hnd.not_mem_erase]
            dsimp only [List.map_cons]
            rw [List.filter_cons, if_pos (by simp)]
            simp
          · have hne : l.sec ≠ sv := fun h => hsveq h.symm
            rw [h2, ihb sv ((List.mem_erase_of_ne hsveq).mpr hsv)]
            dsimp only [List.map_cons]
            rw [List.filter_cons,
              if_neg (by simp only [decide_eq_true_eq]; exact hne)]
        · rw [h1, h2, List.length_cons]
          omega
      · have hnmem : l.sec ∉ sset := by simpa using hcont
        have hscan : rewind_scan env job ((l, prev) :: older) sset s =
            ((rewind_scan env job older sset s).1,
             l :: (rewind_scan env job older sset s).2.1,
             (rewind_scan env job older sset s).2.2) := by
          simp only [rewind_scan]
          rw [if_neg hemp, if_neg hcont]
        have h1 : (rewind_scan env job ((l, prev) :: older) sset s).1 =
            (rewind_scan env job older sset s).1 := by rw [hscan]
        have h2 : (rewind_scan env job ((l, prev) :: older) sset s).2.1 =
            l :: (rewind_scan env job older sset s).2.1 := by rw [hscan]
        obtain ⟨iha, ihb, ihc⟩ := ih sset s hnd
        refine ⟨fun sv hsv => ?_, fun sv hsv => ?_, ?_⟩
        · rw [h2]
          dsimp only [List.map_cons]
          rw [List.filter_cons, List.filter_cons, iha sv hsv]
        · have hne : l.sec ≠ sv := fun h => hnmem (h ▸ hsv)
          rw [h2]
          dsimp only [List.map_cons]
          rw [List.filter_cons, List.filter_cons,
            if_neg (by simp only [decide_eq_true_eq]; exact hne),
            if_neg (by simp only [decide_eq_true_eq]; exact hne),
            ihb sv hsv]
        · rw [h1, h2, List.length_cons, List.length_cons]
          omega

/-- C7 (corrected): for a non-empty ordered flow, rewind_job_progress clamps
the cursors into range; returns as the new current section the flow element
immediately before the clamped target cursor (none when it is 0); leaves the
logs whose section lies outside the slice untouched; removes, for each
section in the slice, exactly the newest log of that section if one exists;
and removes exactly as many logs as the count it reports.  (On an empty flow
the source returns the job's current section, not none as the claim states —
see the counterexample.) -/
theorem C7_rewind_contract (env : Env) (job : JobState)
    (flow : List SectionChoices) (target current : Int) (logs : List PLog)
    (s : Stocks) (hflow : flow ≠ []) :
    (0 ≤ rewind_clamp_target flow target ∧
      rewind_clamp_target flow target ≤ (flow.length : Int) ∧
      rewind_clamp_target flow target ≤
        rewind_clamp_current flow target current ∧
      rewind_clamp_current flow target current ≤ (flow.length : Int)) ∧
    (rewind_job_progress env job flow target current logs s).2.1 =
      (if rewind_clamp_target flow target > 0 then
        flow.get? ((rewind_clamp_target flow target).toNat - 1)
      else none) ∧
    (∀ sv, sv ∉ rewind_slice flow target current →
      (rewind_job_progress env job flow target current logs s).2.2.1.filter
          (fun l => l.sec = sv) =
        logs.filter (fun l => l.sec = sv)) ∧
    (∀ sv, sv ∈ rewind_slice flow target current →
      (rewind_job_progress env job flow target current logs s).2.2.1.filter
          (fun l => l.sec = sv) =
        (logs.filter (fun l => l.sec = sv)).dropLast) ∧
    (rewind_job_progress env job flow target current logs s).1 +
      (rewind_job_progress env job flow target current logs s).2.2.1.length =
      logs.length := by
  have hne : ¬(flow.isEmpty = true) := by
    cases flow with
    | nil => exact absurd rfl hflow
    | cons a t => simp
  have hclamp : 0 ≤ rewind_clamp_target flow target ∧
      rewind_clamp_target flow target ≤ (flow.length : Int) ∧
      rewind_clamp_target flow target ≤
        rewind_clamp_current flow target current ∧
      rewind_clamp_current flow target current ≤ (flow.length : Int) := by
    simp only [rewind_clamp_current, rewind_clamp_target]
    omega
  by_cases hsl : (rewind_slice flow target current).isEmpty
  · have hr : rewind_job_progress env job flow target current logs s =
        (0, (if rewind_clamp_target flow target > 0 then
              flow.get? ((rewind_clamp_target flow target).toNat - 1)
            else none), logs, s) := by
      simp only [rewind_job_progress]
      rw [if_neg hne, if_pos hsl]
    have hslnil : rewind_slice flow target current = [] :=
      List.isEmpty_iff.mp hsl
    refine ⟨hclamp, ?_, fun sv hsv => ?_, fun sv hsv => ?_, ?_⟩
    · rw [hr]
    · rw [hr]
    · rw [hslnil] at hsv
      exact absurd hsv (by simp)
    · rw [hr]
      simp
  · have hr : rewind_job_progress env job flow target current logs s =
        ((rewind_scan env job (collect_log_history none logs).reverse
            (rewind_slice flow target current).dedup s).1,
         (if rewind_clamp_target flow target > 0 then
            flow.get? ((rewind_clamp_target flow target).toNat - 1)
          else none),
         (rewind_scan env job (collect_log_history none logs).reverse
            (rewind_slice flow target current).dedup s).2.1.reverse,
         (rewind_scan env job (collect_log_history none logs).reverse
            (rewind_slice flow target current).dedup s).2.2) := by
      simp only [rewind_job_progress]
      rw [if_neg hne, if_neg hsl]
    have hmap : ((collect_log_history none logs).reverse.map Prod.fst) =
        logs.reverse := by
      rw [List.map_reverse, collect_log_history_map_fst]
    obtain ⟨iha, ihb, ihc⟩ := rewind_scan_spec env job
      (collect_log_history none logs).reverse
      (rewind_slice flow target current).dedup s
      (List.nodup_dedup (rewind_slice flow target current))
    refine ⟨hclamp, ?_, fun sv hsv => ?_, fun sv hsv => ?_, ?_⟩
    · rw [hr]
    · rw [hr]
      show (rewind_scan env job (collect_log_history none logs).reverse
          (rewind_slice flow target current).dedup
          s).2.1.reverse.filter (fun l => decide (l.sec = sv)) = _
      rw [List.filter_reverse,
        iha sv (fun h => hsv (List.mem_dedup.mp h)), hmap,
        List.filter_reverse, List.reverse_reverse]
    · rw [hr]
      show (rewind_scan env job (collect_log_history none logs).reverse
          (rewind_slice flow target current).dedup
          s).2.1.reverse.filter (fun l => decide (l.sec = sv)) = _
      rw [List.filter_reverse, ihb sv (List.mem_dedup.mpr hsv), hmap,
        List.filter_reverse, reverse_drop_one_reverse]
    · rw [hr]
      show (rewind_scan env job (collect_log_history none logs).reverse
          (rewind_slice flow target current).dedup s).1 +
          (rewind_scan env job (collect_log_history none logs).reverse
            (rewind_slice flow target current).dedup
            s).2.1.reverse.length = logs.length
      rw [List.length_reverse]
      have hlen : (collect_log_history none logs).reverse.length =
          logs.length := by
        rw [List.length_reverse]
        have := congrArg List.length (collect_log_history_map_fst none logs)
        simpa using this
      omega

/-- C7 counterexample to the claim as stated: on an empty ordered flow and
target cursor 0 the source returns the job's existing current_section
(painting here) as the new current section, where the claim demands none. -/
theorem C7_counterexample :
    rewind_job_progress env_empty job_paint [] 0 0 [] s_zero =
      (0, some SectionChoices.painting, [], s_zero) ∧
    some SectionChoices.painting ≠ (none : Option SectionChoices) :=
  ⟨rfl, by simp⟩

/-- C7 witness: rewinding a two-step flow from cursor 2 back to cursor 1
reports painting — the element before the target cursor — as the new current
section. -/
theorem C7_witness :
    (rewind_job_progress env_empty job_fresh
      [SectionChoices.painting, SectionChoices.packaging] 1 2
      [log_normal_painting 1, log_pack_n] s_zero).2.1 =
      some SectionChoices.painting :=
  ((C7_rewind_contract env_empty job_fresh
      [SectionChoices.painting, SectionChoices.packaging] 1 2
      [log_normal_painting 1, log_pack_n] s_zero (by decide)).2.1).trans
    (by decide)

end Archen
